import Mathlib

/-!
# phasedisperser~ : the all-pass stage and the per-block driver

A shallow embedding of `source/projects/phasedisperser_tilde/phasedisperser_tilde.cpp`.

Modelling conventions.

* `double` values are elements of an arbitrary type `α`.  The all-pass stage only needs
  `+`, `-`, `*` (and `0`), so the stage-level definitions ask for no more than that.  The
  driver compares and divides, so it works over a linear ordered field with a floor
  function (`ℚ` for evaluation, `ℝ` for the trigonometric statements).  Rounding, NaN and
  infinities of IEEE arithmetic are not modelled.
* `long` and `int` values are `Int`.  The counters and subscripts stay far from the machine
  bounds.  The member `int freq` does not: the model keeps the integer value of the mapped
  frequency, and section C17 shows that this value is above `INT_MAX`.
* A `std::array` of stages is a function from the C index (`Int`) to the stage stored there.
* A sample buffer handed to a loop `for (i = 0; i < sampleFrames; i++)` is the list of its
  first `sampleFrames` entries.  `temp1`, `temp2`, `left`, `right` are written on
  `[0, sampleFrames)` before they are read in every block, so they are block-local lists.
* `sin`, `cos`, `exp`, `log`, `sqrt` of `<cmath>` are passed in as a record `Libm`; the
  statements that need the real functions instantiate it with `Real.sin`, `Real.cos`, ...
  `abs` on a `double` is the absolute value, `floor` the integer floor.
* The constant `3.14159265358979323846` of the constructor is kept as the literal it is.
* The four attributes are read once per block and passed in as a record `Attributes`; the
  host clamps them when they are set, which the statements take as hypotheses where needed.
-/

namespace PhaseDisperser

/-! ## AllPassCoefficients, AllPassFilter -/

/-- The struct `AllPassCoefficients` (source lines 8-14). -/
structure AllPassCoefficients (α : Type) where
  c0 : α
  c1 : α
  c2 : α
  c3 : α
  c4 : α

/-- The data members of class `AllPassFilter` (source lines 77-83). -/
structure AllPassFilter (α : Type) where
  co : AllPassCoefficients α
  xm1 : α
  xm2 : α
  ym1 : α
  ym2 : α

/-- The functions of `<cmath>` the code calls. -/
structure Libm (α : Type) where
  sin : α → α
  cos : α → α
  exp : α → α
  log : α → α
  sqrt : α → α

namespace AllPassFilter

section Stage

variable {α : Type}

/-- The defaulted constructor `AllPassFilter() = default`: every member initialiser is 0. -/
def default [Zero α] : AllPassFilter α :=
  { co := { c0 := 0, c1 := 0, c2 := 0, c3 := 0, c4 := 0 }, xm1 := 0, xm2 := 0, ym1 := 0, ym2 := 0 }

/-- The method `copy_coefficients_from` (source lines 41-47). -/
def copy_coefficients_from (self filter : AllPassFilter α) : AllPassFilter α :=
  { self with
    co := { c0 := filter.co.c0, c1 := filter.co.c1, c2 := filter.co.c2,
            c3 := filter.co.c3, c4 := filter.co.c4 } }

/-- The method `reset` (source lines 49-54). -/
def reset [Zero α] (self : AllPassFilter α) : AllPassFilter α :=
  { self with xm1 := 0, xm2 := 0, ym1 := 0, ym2 := 0 }

/-- One pass through the body of the loop of `processBlock` (source lines 61-73):
the stage after the pass and the sample written to `out[i]`. -/
def processSample [Add α] [Sub α] [Mul α] (self : AllPassFilter α) (x : α) :
    AllPassFilter α × α :=
  let y := self.co.c0 * x +
           self.co.c1 * self.xm1 +
           self.co.c2 * self.xm2 -
           self.co.c3 * self.ym1 -
           self.co.c4 * self.ym2
  ({ self with ym2 := self.ym1, ym1 := y, xm2 := self.xm1, xm1 := x }, y)

/-- The method `processBlock` (source lines 56-75): the loop runs over `in[0..numSamples)` in
increasing order; the result is the stage on exit and the block written to `out`. -/
def processBlock [Add α] [Sub α] [Mul α] (self : AllPassFilter α) :
    List α → AllPassFilter α × List α
  | [] => (self, [])
  | x :: xs =>
    let r := self.processSample x
    let rest := processBlock r.1 xs
    (rest.1, r.2 :: rest.2)

/-- Entry `i` of a block `s` extended to the left by its two history values:
`s[-1] = m1`, `s[-2] = m2`, and `s[i]` for `0 ≤ i`. -/
def histAt [Zero α] (m1 m2 : α) (s : List α) (i : Int) : α :=
  if i = -1 then m1 else if i = -2 then m2 else s.getD i.toNat 0

end Stage

section Construct

variable {α : Type} [Field α]

/-- The constructor `AllPassFilter(frequency, sr, q)` (source lines 20-39).  The state members
keep their default initialisers. -/
def construct (m : Libm α) (frequency sr q : α) : AllPassFilter α :=
  let w0 := 2 * 3.14159265358979323846 * frequency / sr
  let cosw0 := m.cos w0
  let alpha := m.sin w0 * (2 * q)
  let b0 := 1 - alpha
  let b1 := -2 * cosw0
  let b2 := 1 + alpha
  let a0 := 1 + alpha
  let a1 := -2 * cosw0
  let a2 := 1 - alpha
  { co := { c0 := b0 / a0, c1 := b1 / a0, c2 := b2 / a0, c3 := a1 / a0, c4 := a2 / a0 },
    xm1 := 0, xm2 := 0, ym1 := 0, ym2 := 0 }

/-- The local `a0 = 1 + alpha` of the constructor (source lines 21-30), by which the five
coefficients are divided. -/
def a0 (m : Libm α) (frequency sr q : α) : α :=
  let w0 := 2 * 3.14159265358979323846 * frequency / sr
  let alpha := m.sin w0 * (2 * q)
  1 + alpha

end Construct

end AllPassFilter

/-! ## The object `phasedisperser` -/

/-- The four attributes of the object (source lines 97-112), as plain `number` values.  They
are owned by the host, which clamps each to its range when it is set; a block reads them. -/
structure Attributes (α : Type) where
  a_frequency : α
  a_intensity : α
  a_q : α
  a_mix : α

/-- The private data members of class `phasedisperser` (source lines 184-195) that live
across blocks.  The four sample buffers are block-local (see the header). -/
structure phasedisperser (α : Type) where
  filterL : Int → AllPassFilter α
  filterR : Int → AllPassFilter α
  freq : Int
  cur_iterations : Int
  q : α
  samplesSinceSilence : Int
  last_freq : α

/-- The constant `maxFilters` (source line 179). -/
def maxFilters : Int := 50

/-- The constant `maxBufferSize` (source line 180). -/
def maxBufferSize : Int := 4096

/-- The constant `deactivateAfterSamples` (source line 181). -/
def deactivateAfterSamples : Int := 16384

/-- The loop `for (int i = lo; ...; i++) body` unrolled `n` times from index `i`. -/
def forLoopFrom {σ : Type} (body : Int → σ → σ) : Nat → Int → σ → σ
  | 0, _, s => s
  | n + 1, i, s => forLoopFrom body n (i + 1) (body i s)

/-- The loop `for (int i = lo; i < hi; i++) body`, for a body that changes neither `i` nor
`hi`: it runs for `i = lo, lo + 1, ..., hi - 1`, that is `hi - lo` times (no time when
`hi ≤ lo`). -/
def forLoop {σ : Type} (lo hi : Int) (body : Int → σ → σ) (s : σ) : σ :=
  forLoopFrom body (hi - lo).toNat lo s

/-- The values of `i` with which the loop `for (int i = lo; i < hi; i++)` runs its body, in
order. -/
def forLoopIndices (lo hi : Int) : List Int :=
  (List.range (hi - lo).toNat).map (fun (k : Nat) => lo + (k : Int))

/-- The working state of the loop "filter the audio" (source lines 154-162): the two banks
and the two working buffers `temp1`, `temp2`. -/
structure Work (α : Type) where
  filterL : Int → AllPassFilter α
  filterR : Int → AllPassFilter α
  temp1 : List α
  temp2 : List α

/-- What one call of `operator()` leaves behind: the object, the working buffers as the last
loop reads them, and the two output vectors. -/
structure BlockResult (α : Type) where
  self : phasedisperser α
  temp1 : List α
  temp2 : List α
  out1 : List α
  out2 : List α

namespace phasedisperser

section Driver

variable {α : Type} [LinearOrderedField α] [FloorRing α]

/-- The constant `noiseFloor` (source line 182). -/
def noiseFloor : α := 0.000007

/-- The attribute values the object is created with (source lines 97-112). -/
def defaultAttributes : Attributes α :=
  { a_frequency := 700, a_intensity := 25, a_q := 0.7, a_mix := 0.8 }

/-- The object as constructed: default stages and the member initialisers of source lines
191-195. -/
def initial : phasedisperser α :=
  { filterL := fun _ => AllPassFilter.default, filterR := fun _ => AllPassFilter.default,
    freq := 0, cur_iterations := 0, q := 0, samplesSinceSilence := 1, last_freq := 0 }

/-- The conversion `static_cast<long>(x)` of a `double`: truncation toward zero. -/
def toLong (x : α) : Int := if 0 ≤ x then ⌊x⌋ else ⌈x⌉

/-- The body of the loop of `setupFilters` (source lines 210-216). -/
def setupBody (a : Attributes α) (i : Int) (self : phasedisperser α) : phasedisperser α :=
  let s1 : phasedisperser α :=
    { self with
      filterL := Function.update self.filterL i
        ((self.filterL i).copy_coefficients_from (self.filterL 0)),
      filterR := Function.update self.filterR i
        ((self.filterR i).copy_coefficients_from (self.filterR 0)) }
  if |a.a_frequency - s1.last_freq| > a.a_frequency / 10 ∧ s1.freq < 500 then
    { s1 with
      filterL := Function.update s1.filterL i (s1.filterL i).reset,
      filterR := Function.update s1.filterR i (s1.filterR i).reset }
  else s1

/-- The method `setupFilters` (source lines 197-218).  `freq` is an `int`: the model stores
the floor of the mapped frequency as an integer without a machine bound, which is the value
of the member only while it fits 32 bits (see section C17).  The loop condition
`i < a_intensity` compares the `int` index with the `number`; for an integer `i` it says
`i < ⌈a_intensity⌉`. -/
def setupFilters (m : Libm α) (a : Attributes α) (self : phasedisperser α) :
    phasedisperser α :=
  let freq : Int := ⌊m.exp ((16 + a.a_frequency * 100 * 1.20103) * m.log 1.059) * 8.17742⌋
  let q0 : α := a.a_q * m.sqrt 2
  let q : α := if q0 ≤ 0.005 then 0.005 else q0
  let s1 : phasedisperser α :=
    { self with
      freq := freq, q := q,
      filterL := Function.update self.filterL 0 (AllPassFilter.construct m (freq : α) 44100 q),
      filterR := Function.update self.filterR 0 (AllPassFilter.construct m (freq : α) 44100 q) }
  forLoop 1 ⌈a.a_intensity⌉ (setupBody a) s1

/-- The body of the growth loop (source lines 132-133); `last` is `cur_iterations - 1`. -/
def growBody (last : Int) (i : Int) (self : phasedisperser α) : phasedisperser α :=
  { self with
    filterL := Function.update self.filterL i
      ((self.filterL i).copy_coefficients_from (self.filterL last)),
    filterR := Function.update self.filterR i
      ((self.filterR i).copy_coefficients_from (self.filterR last)) }

/-- The resize step of `operator()` (source lines 128-141). -/
def resize (m : Libm α) (a : Attributes α) (self : phasedisperser α) : phasedisperser α :=
  let iterations := toLong a.a_intensity
  if iterations > self.cur_iterations then
    let s1 :=
      if self.cur_iterations > 0 then
        forLoop (self.cur_iterations - 1) iterations (growBody (self.cur_iterations - 1)) self
      else
        setupFilters m a self
    { s1 with cur_iterations := iterations }
  else if iterations < self.cur_iterations then
    { self with cur_iterations := iterations }
  else self

/-- The silence test of the first loop (source lines 147-149) on the frames of the input, in
order: the value of `samplesSinceSilence` when the loop ends.  (The loop also copies the
input to `temp1`, `temp2`.) -/
def copyInput : Int → List (α × α) → Int
  | c, [] => c
  | c, (x1, x2) :: rest =>
    copyInput (if |x1| ≥ noiseFloor ∨ |x2| ≥ noiseFloor then 0 else c) rest

/-- The body of the loop over the stages (source lines 155-161): both stages `i` process the
working buffers into `left`, `right`, which are copied back to `temp1`, `temp2`. -/
def cascadeBody (i : Int) (w : Work α) : Work α :=
  let l := (w.filterL i).processBlock w.temp1
  let r := (w.filterR i).processBlock w.temp2
  { filterL := Function.update w.filterL i l.1,
    filterR := Function.update w.filterR i r.1,
    temp1 := l.2,
    temp2 := r.2 }

/-- The step "filter the audio" (source lines 152-163). -/
def filterAudio (a : Attributes α) (self : phasedisperser α) (temp1 temp2 : List α) : Work α :=
  if self.samplesSinceSilence < deactivateAfterSamples ∧ self.cur_iterations ≠ 0 ∧ a.a_mix > 0 then
    forLoop 0 self.cur_iterations cascadeBody
      { filterL := self.filterL, filterR := self.filterR, temp1 := temp1, temp2 := temp2 }
  else
    { filterL := self.filterL, filterR := self.filterR, temp1 := temp1, temp2 := temp2 }

/-- One update of `samplesSinceSilence` in the last loop (source lines 166-171). -/
def silenceStep (c : Int) (t1 t2 : α) : Int :=
  if |t1| ≥ noiseFloor ∨ |t2| ≥ noiseFloor then 0
  else if c < 32768 then c + 1
  else c

/-- The last loop of `operator()` (source lines 165-175) over the frames in order: the value
of `samplesSinceSilence` on exit and the two output vectors. -/
def mixLoop (mix : α) : Int → List α → List α → List (α × α) → Int × List α × List α
  | c, t1 :: temp1, t2 :: temp2, (x1, x2) :: input =>
    let r := mixLoop mix (silenceStep c t1 t2) temp1 temp2 input
    (r.1, (t1 * mix + x1 * (1 - mix)) :: r.2.1, (t2 * mix + x2 * (1 - mix)) :: r.2.2)
  | c, _, _, _ => (c, [], [])

/-- The object when `operator()` reaches the comment "filter the audio": after the resize
step and the first loop (source lines 128-150). -/
def beforeFilter (m : Libm α) (a : Attributes α) (self : phasedisperser α)
    (input : List (α × α)) : phasedisperser α :=
  let s1 := resize m a self
  { s1 with samplesSinceSilence := copyInput s1.samplesSinceSilence input }

/-- The method `operator()` (source lines 120-176) on an input bundle given as its frames
`(in1[i], in2[i])`, `i < sampleFrames`. -/
def operatorCall (m : Libm α) (a : Attributes α) (self : phasedisperser α)
    (input : List (α × α)) : BlockResult α :=
  let s2 := beforeFilter m a self input
  let w := filterAudio a s2 (input.map Prod.fst) (input.map Prod.snd)
  let r := mixLoop a.a_mix s2.samplesSinceSilence w.temp1 w.temp2 input
  { self := { s2 with filterL := w.filterL, filterR := w.filterR, samplesSinceSilence := r.1 },
    temp1 := w.temp1, temp2 := w.temp2, out1 := r.2.1, out2 := r.2.2 }

/-- The object after a sequence of calls of `operator()`, each with the attribute values the
host holds at that block. -/
def runBlocks (m : Libm α) (self : phasedisperser α) :
    List (Attributes α × List (α × α)) → phasedisperser α
  | [] => self
  | b :: rest => runBlocks m (operatorCall m b.1 self b.2).self rest

/-- The subscripts applied to `filterL` and `filterR` by the resize step, in program order:
the growth loop (source lines 131-134) uses `i` and `cur_iterations - 1` in each pass;
`setupFilters` (source lines 206-216) uses `0` and then `i` and `0` in each pass of its
loop. -/
def resizeBankIndices (a : Attributes α) (self : phasedisperser α) : List Int :=
  let iterations := toLong a.a_intensity
  if iterations > self.cur_iterations then
    if self.cur_iterations > 0 then
      (forLoopIndices (self.cur_iterations - 1) iterations).flatMap
        (fun i => [i, self.cur_iterations - 1])
    else
      0 :: (forLoopIndices 1 ⌈a.a_intensity⌉).flatMap (fun i => [i, 0])
  else []

/-- The subscripts applied to `filterL` and `filterR` by the step "filter the audio" (source
lines 153-156) on the object that reaches it. -/
def filterBankIndices (a : Attributes α) (self : phasedisperser α) : List Int :=
  if self.samplesSinceSilence < deactivateAfterSamples ∧ self.cur_iterations ≠ 0 ∧ a.a_mix > 0 then
    forLoopIndices 0 self.cur_iterations
  else []

/-- The subscripts applied to `filterL` and `filterR` in one call of `operator()`. -/
def bankIndices (m : Libm α) (a : Attributes α) (self : phasedisperser α)
    (input : List (α × α)) : List Int :=
  resizeBankIndices a self ++ filterBankIndices a (beforeFilter m a self input)

/-- The subscripts applied to `temp1`, `temp2`, `left`, `right` (and to the input and output
vectors) in one call of `operator()` with `sampleFrames` frames: each loop over samples,
the one of `processBlock` included, is `for (i = 0; i < sampleFrames; i++)`. -/
def bufferIndices (sampleFrames : Int) : List Int :=
  forLoopIndices 0 sampleFrames

/-- Every frame of the block is below the noise floor in both channels. -/
def inputSilent (input : List (α × α)) : Prop :=
  ∀ f ∈ input, |f.1| < (noiseFloor : α) ∧ |f.2| < (noiseFloor : α)

instance (input : List (α × α)) : Decidable (inputSilent input) :=
  inferInstanceAs (Decidable (∀ f ∈ input, |f.1| < (noiseFloor : α) ∧ |f.2| < (noiseFloor : α)))

/-- Every sample of the two working buffers of a block is below the noise floor. -/
def workingSilent (r : BlockResult α) : Prop :=
  (∀ t ∈ r.temp1, |t| < (noiseFloor : α)) ∧ (∀ t ∈ r.temp2, |t| < (noiseFloor : α))

instance (r : BlockResult α) : Decidable (workingSilent r) :=
  inferInstanceAs (Decidable
    ((∀ t ∈ r.temp1, |t| < (noiseFloor : α)) ∧ (∀ t ∈ r.temp2, |t| < (noiseFloor : α))))

/-- The number of samples (frames) of a sequence of blocks. -/
def totalSamples (blocks : List (Attributes α × List (α × α))) : Nat :=
  (blocks.map (fun b => b.2.length)).sum

/-- A sequence of blocks, processed one after the other from `self`, in each of which the
input and the working buffers are below the noise floor. -/
def SilentRun (m : Libm α) :
    phasedisperser α → List (Attributes α × List (α × α)) → Prop
  | _, [] => True
  | self, b :: rest =>
    inputSilent b.2 ∧ workingSilent (operatorCall m b.1 self b.2) ∧
      SilentRun m (operatorCall m b.1 self b.2).self rest

/-- A stage with coefficients of the all-pass shape (`c0 = c4`, `c1 = c3`, `c2 = 1`) whose
history holds the output at 1 while the input is zero. -/
def ringingStage : AllPassFilter α :=
  { co := { c0 := 1, c1 := -2, c2 := 1, c3 := -2, c4 := 1 },
    xm1 := 0, xm2 := 0, ym1 := 1, ym2 := 1 }

/-- An object with one active stage per channel, the left one being `ringingStage`. -/
def ringingObject : phasedisperser α :=
  { filterL := fun i => if i = 0 then ringingStage else AllPassFilter.default,
    filterR := fun _ => AllPassFilter.default,
    freq := 0, cur_iterations := 1, q := 0, samplesSinceSilence := 0, last_freq := 0 }

end Driver

end phasedisperser

/-! ## The cascade in the words of the specification -/

/-- The serial pass of the specification for one channel: the block `x` after it has gone
through the stages `0, ..., k-1` of `bank` in index order, the output block of each stage
being the input block of the next. -/
def serialSignal {α : Type} [Add α] [Sub α] [Mul α] (bank : Int → AllPassFilter α)
    (x : List α) : Nat → List α
  | 0 => x
  | k + 1 => ((bank (k : Int)).processBlock (serialSignal bank x k)).2

/-- The bank after the serial pass of the specification over `k` stages: stage `j < k` has
been advanced once, by `processBlock` on the signal that reaches it; the others are as they
were. -/
def serialBank {α : Type} [Add α] [Sub α] [Mul α] (bank : Int → AllPassFilter α)
    (x : List α) (k : Nat) : Int → AllPassFilter α :=
  fun j =>
    if 0 ≤ j ∧ j < (k : Int) then ((bank j).processBlock (serialSignal bank x j.toNat)).1
    else bank j

/-! ## Lemmas on the stage -/

theorem histAt_eq_getD {α : Type} [Zero α] (m1 m2 : α) (s : List α) (k : Nat) :
    AllPassFilter.histAt m1 m2 s ((k : Int) - 2) = (m2 :: m1 :: s).getD k 0 := by
  match k with
  | 0 => simp [AllPassFilter.histAt]
  | 1 => simp [AllPassFilter.histAt]
  | k + 2 =>
    have h1 : ((k + 2 : Nat) : Int) - 2 = (k : Int) := by push_cast; ring
    have h2 : ¬ ((k : Int) = -1) := by omega
    have h3 : ¬ ((k : Int) = -2) := by omega
    simp [AllPassFilter.histAt, h1, h2, h3]

section StageLemmas

variable {α : Type} [Add α] [Sub α] [Mul α]

theorem processBlock_nil (f : AllPassFilter α) : f.processBlock [] = (f, []) := rfl

theorem processBlock_cons (f : AllPassFilter α) (x : α) (xs : List α) :
    f.processBlock (x :: xs) =
      (((f.processSample x).1.processBlock xs).1,
        (f.processSample x).2 :: ((f.processSample x).1.processBlock xs).2) := rfl

theorem processBlock_length (f : AllPassFilter α) (xs : List α) :
    (f.processBlock xs).2.length = xs.length := by
  induction xs generalizing f with
  | nil => rfl
  | cons x xs ih => simp [processBlock_cons, ih]

theorem processSample_co (f : AllPassFilter α) (x : α) : (f.processSample x).1.co = f.co := rfl

theorem processBlock_co (f : AllPassFilter α) (xs : List α) :
    (f.processBlock xs).1.co = f.co := by
  induction xs generalizing f with
  | nil => rfl
  | cons x xs ih => rw [processBlock_cons]; simp only [ih, processSample_co]

/-- The recursion of `processBlock` on the sequences extended by the entry history, with the
index shifted by two. -/
theorem processBlock_recursion_shifted [Zero α] (f : AllPassFilter α) (x : List α) (i : Nat)
    (hi : i < x.length) :
    (f.ym2 :: f.ym1 :: (f.processBlock x).2).getD (i + 2) 0 =
      f.co.c0 * (f.xm2 :: f.xm1 :: x).getD (i + 2) 0 +
      f.co.c1 * (f.xm2 :: f.xm1 :: x).getD (i + 1) 0 +
      f.co.c2 * (f.xm2 :: f.xm1 :: x).getD i 0 -
      f.co.c3 * (f.ym2 :: f.ym1 :: (f.processBlock x).2).getD (i + 1) 0 -
      f.co.c4 * (f.ym2 :: f.ym1 :: (f.processBlock x).2).getD i 0 := by
  induction x generalizing f i with
  | nil => simp at hi
  | cons a xs ih =>
    rw [processBlock_cons]
    match i with
    | 0 => simp [AllPassFilter.processSample]
    | j + 1 =>
      have hj : j < xs.length := by simpa using hi
      have h := ih (f.processSample a).1 j hj
      simpa [AllPassFilter.processSample] using h

/-- The history on exit of `processBlock` is the last two entries of the extended input and
of the extended output. -/
theorem processBlock_exit_state [Zero α] (f : AllPassFilter α) (x : List α) :
    (f.processBlock x).1.xm1 = (f.xm2 :: f.xm1 :: x).getD (x.length + 1) 0 ∧
    (f.processBlock x).1.xm2 = (f.xm2 :: f.xm1 :: x).getD x.length 0 ∧
    (f.processBlock x).1.ym1 = (f.ym2 :: f.ym1 :: (f.processBlock x).2).getD (x.length + 1) 0 ∧
    (f.processBlock x).1.ym2 = (f.ym2 :: f.ym1 :: (f.processBlock x).2).getD x.length 0 := by
  induction x generalizing f with
  | nil => simp [processBlock_nil]
  | cons a xs ih =>
    rw [processBlock_cons]
    exact ih (f.processSample a).1

end StageLemmas

/-! ## C1 -/

section ClaimC1

variable {α : Type} [Add α] [Sub α] [Mul α] [Zero α]

/-- C1: `processBlock` implements the direct-form-I recursion.  For every stage `f` and input
block `x` of `n` samples the output block `y` has `n` samples and
`y[i] = c0*x[i] + c1*x[i-1] + c2*x[i-2] - c3*y[i-1] - c4*y[i-2]` for every `0 ≤ i < n`,
where index `-1` and `-2` of `x` (of `y`) read the entry state `xm1`, `xm2` (`ym1`, `ym2`);
on exit `xm1 = x[n-1]`, `xm2 = x[n-2]`, `ym1 = y[n-1]`, `ym2 = y[n-2]` in the extended
sequences, and the five coefficients are unchanged. -/
theorem C1_processBlock_direct_form_I (f : AllPassFilter α) (x : List α) :
    (f.processBlock x).2.length = x.length ∧
    (∀ i : Nat, i < x.length →
      AllPassFilter.histAt f.ym1 f.ym2 (f.processBlock x).2 i =
        f.co.c0 * AllPassFilter.histAt f.xm1 f.xm2 x i +
        f.co.c1 * AllPassFilter.histAt f.xm1 f.xm2 x ((i : Int) - 1) +
        f.co.c2 * AllPassFilter.histAt f.xm1 f.xm2 x ((i : Int) - 2) -
        f.co.c3 * AllPassFilter.histAt f.ym1 f.ym2 (f.processBlock x).2 ((i : Int) - 1) -
        f.co.c4 * AllPassFilter.histAt f.ym1 f.ym2 (f.processBlock x).2 ((i : Int) - 2)) ∧
    (f.processBlock x).1.xm1 = AllPassFilter.histAt f.xm1 f.xm2 x ((x.length : Int) - 1) ∧
    (f.processBlock x).1.xm2 = AllPassFilter.histAt f.xm1 f.xm2 x ((x.length : Int) - 2) ∧
    (f.processBlock x).1.ym1 =
      AllPassFilter.histAt f.ym1 f.ym2 (f.processBlock x).2 ((x.length : Int) - 1) ∧
    (f.processBlock x).1.ym2 =
      AllPassFilter.histAt f.ym1 f.ym2 (f.processBlock x).2 ((x.length : Int) - 2) ∧
    (f.processBlock x).1.co = f.co := by
  have e0 : ∀ (m1 m2 : α) (s : List α) (k : Nat),
      AllPassFilter.histAt m1 m2 s (k : Int) = (m2 :: m1 :: s).getD (k + 2) 0 := by
    intro m1 m2 s k
    have h := histAt_eq_getD m1 m2 s (k + 2)
    have h1 : ((k + 2 : Nat) : Int) - 2 = (k : Int) := by push_cast; ring
    rwa [h1] at h
  have e1 : ∀ (m1 m2 : α) (s : List α) (k : Nat),
      AllPassFilter.histAt m1 m2 s ((k : Int) - 1) = (m2 :: m1 :: s).getD (k + 1) 0 := by
    intro m1 m2 s k
    have h := histAt_eq_getD m1 m2 s (k + 1)
    have h1 : ((k + 1 : Nat) : Int) - 2 = (k : Int) - 1 := by push_cast; ring
    rwa [h1] at h
  refine ⟨processBlock_length f x, ?_, ?_, ?_, ?_, ?_, processBlock_co f x⟩
  · intro i hi
    rw [e0, e0, e1, e1, histAt_eq_getD, histAt_eq_getD]
    exact processBlock_recursion_shifted f x i hi
  · rw [e1]; exact (processBlock_exit_state f x).1
  · rw [histAt_eq_getD]; exact (processBlock_exit_state f x).2.1
  · rw [e1]; exact (processBlock_exit_state f x).2.2.1
  · rw [histAt_eq_getD]; exact (processBlock_exit_state f x).2.2.2

end ClaimC1

/-! ## C2, C3 -/

/-- The denominator `a0 = 1 + alpha` of the constructor is positive at
`frequency = 1000`, `sr = 44100`, `q = 0.707` with the real sine. -/
theorem a0_pos_at_1000_44100 :
    0 < 1 + Real.sin (2 * 3.14159265358979323846 * 1000 / 44100) * (2 * 0.707) := by
  have hpi := Real.pi_gt_three
  have hs : 0 < Real.sin (2 * 3.14159265358979323846 * 1000 / 44100) := by
    apply Real.sin_pos_of_pos_of_lt_pi
    · norm_num
    · have : (2 * 3.14159265358979323846 * 1000 / 44100 : ℝ) < 3 := by norm_num
      linarith
  positivity

/-- The coefficients the constructor computes, in closed form. -/
theorem construct_closed_form {α : Type} [Field α] (m : Libm α) (frequency sr q : α)
    (h : 1 + m.sin (2 * 3.14159265358979323846 * frequency / sr) * (2 * q) ≠ 0) :
    (AllPassFilter.construct m frequency sr q).co.c0 =
      (1 - m.sin (2 * 3.14159265358979323846 * frequency / sr) * (2 * q)) /
        (1 + m.sin (2 * 3.14159265358979323846 * frequency / sr) * (2 * q)) ∧
    (AllPassFilter.construct m frequency sr q).co.c1 =
      -2 * m.cos (2 * 3.14159265358979323846 * frequency / sr) /
        (1 + m.sin (2 * 3.14159265358979323846 * frequency / sr) * (2 * q)) ∧
    (AllPassFilter.construct m frequency sr q).co.c2 =
      (1 + m.sin (2 * 3.14159265358979323846 * frequency / sr) * (2 * q)) /
        (1 + m.sin (2 * 3.14159265358979323846 * frequency / sr) * (2 * q)) ∧
    (AllPassFilter.construct m frequency sr q).co.c2 = 1 ∧
    (AllPassFilter.construct m frequency sr q).co.c3 =
      (AllPassFilter.construct m frequency sr q).co.c1 ∧
    (AllPassFilter.construct m frequency sr q).co.c4 =
      (AllPassFilter.construct m frequency sr q).co.c0 ∧
    (AllPassFilter.construct m frequency sr q).xm1 = 0 ∧
    (AllPassFilter.construct m frequency sr q).xm2 = 0 ∧
    (AllPassFilter.construct m frequency sr q).ym1 = 0 ∧
    (AllPassFilter.construct m frequency sr q).ym2 = 0 :=
  ⟨rfl, rfl, rfl, div_self h, rfl, rfl, rfl, rfl, rfl, rfl⟩

/-- C2: the constructor `AllPassFilter(frequency, sr, q)` produces the closed-form
coefficients.  With `w0 = 2*pi*frequency/sr` (`pi` the literal of the source) and
`alpha = sin(w0)*(2*q)`, if `1 + alpha ≠ 0` then `c0 = (1-alpha)/(1+alpha)`,
`c1 = -2*cos(w0)/(1+alpha)`, `c2 = 1`, `c3 = c1`, `c4 = c0`, and the four state variables
of the new stage are zero. -/
theorem C2_construct_closed_form {α : Type} [Field α] (m : Libm α) (frequency sr q : α)
    (h : 1 + m.sin (2 * 3.14159265358979323846 * frequency / sr) * (2 * q) ≠ 0) :
    (AllPassFilter.construct m frequency sr q).co.c0 =
      (1 - m.sin (2 * 3.14159265358979323846 * frequency / sr) * (2 * q)) /
        (1 + m.sin (2 * 3.14159265358979323846 * frequency / sr) * (2 * q)) ∧
    (AllPassFilter.construct m frequency sr q).co.c1 =
      -2 * m.cos (2 * 3.14159265358979323846 * frequency / sr) /
        (1 + m.sin (2 * 3.14159265358979323846 * frequency / sr) * (2 * q)) ∧
    (AllPassFilter.construct m frequency sr q).co.c2 =
      (1 + m.sin (2 * 3.14159265358979323846 * frequency / sr) * (2 * q)) /
        (1 + m.sin (2 * 3.14159265358979323846 * frequency / sr) * (2 * q)) ∧
    (AllPassFilter.construct m frequency sr q).co.c2 = 1 ∧
    (AllPassFilter.construct m frequency sr q).co.c3 =
      (AllPassFilter.construct m frequency sr q).co.c1 ∧
    (AllPassFilter.construct m frequency sr q).co.c4 =
      (AllPassFilter.construct m frequency sr q).co.c0 ∧
    (AllPassFilter.construct m frequency sr q).xm1 = 0 ∧
    (AllPassFilter.construct m frequency sr q).xm2 = 0 ∧
    (AllPassFilter.construct m frequency sr q).ym1 = 0 ∧
    (AllPassFilter.construct m frequency sr q).ym2 = 0 :=
  construct_closed_form m frequency sr q h

/-- C2 at `frequency = 1000`, `sr = 44100`, `q = 0.707` over the reals. -/
theorem C2_construct_closed_form_witness :
    1 + Real.sin (2 * 3.14159265358979323846 * 1000 / 44100) * (2 * 0.707) ≠ 0 ∧
    (AllPassFilter.construct (Libm.mk Real.sin Real.cos Real.exp Real.log Real.sqrt)
      1000 44100 0.707).co.c2 = 1 :=
  ⟨ne_of_gt a0_pos_at_1000_44100,
    (C2_construct_closed_form (Libm.mk Real.sin Real.cos Real.exp Real.log Real.sqrt)
      1000 44100 0.707 (ne_of_gt a0_pos_at_1000_44100)).2.2.2.1⟩

/-- On the unit circle a real second-order section with mirrored coefficients has numerator
and denominator of equal modulus. -/
theorem mirrored_section_abs (a b : ℝ) (w : ℂ) (hw : Complex.abs w = 1) :
    Complex.abs ((a : ℂ) + (b : ℂ) * w + 1 * w ^ 2) =
      Complex.abs (1 + (b : ℂ) * w + (a : ℂ) * w ^ 2) := by
  have hww : w * (starRingEnd ℂ) w = 1 := by
    rw [Complex.mul_conj, Complex.normSq_eq_abs, hw]; norm_num
  have key : (a : ℂ) + (b : ℂ) * w + 1 * w ^ 2 =
      w ^ 2 * (starRingEnd ℂ) (1 + (b : ℂ) * w + (a : ℂ) * w ^ 2) := by
    simp only [map_add, map_mul, map_one, map_pow, Complex.conj_ofReal]
    linear_combination (-(b : ℂ) * w - (a : ℂ) * (1 + w * (starRingEnd ℂ) w)) * hww
  rw [key, map_mul, Complex.abs_conj, map_pow, hw]
  norm_num

/-- C3: a single stage is all-pass.  For every `frequency`, `sr`, `q` with `1 + alpha ≠ 0`
and every complex `z` with `|z| = 1`, the constructor's coefficients satisfy
`|c0 + c1*z^-1 + c2*z^-2| = |1 + c3*z^-1 + c4*z^-2|`, so the transfer function of the
recursion has modulus 1 wherever its denominator is non-zero. -/
theorem C3_all_pass_unit_circle (m : Libm ℝ) (frequency sr q : ℝ)
    (h : 1 + m.sin (2 * 3.14159265358979323846 * frequency / sr) * (2 * q) ≠ 0)
    (z : ℂ) (hz : Complex.abs z = 1) :
    Complex.abs (((AllPassFilter.construct m frequency sr q).co.c0 : ℂ) +
        ((AllPassFilter.construct m frequency sr q).co.c1 : ℂ) * z⁻¹ +
        ((AllPassFilter.construct m frequency sr q).co.c2 : ℂ) * z⁻¹ ^ 2) =
      Complex.abs (1 + ((AllPassFilter.construct m frequency sr q).co.c3 : ℂ) * z⁻¹ +
        ((AllPassFilter.construct m frequency sr q).co.c4 : ℂ) * z⁻¹ ^ 2) ∧
    (1 + ((AllPassFilter.construct m frequency sr q).co.c3 : ℂ) * z⁻¹ +
        ((AllPassFilter.construct m frequency sr q).co.c4 : ℂ) * z⁻¹ ^ 2 ≠ 0 →
      Complex.abs ((((AllPassFilter.construct m frequency sr q).co.c0 : ℂ) +
        ((AllPassFilter.construct m frequency sr q).co.c1 : ℂ) * z⁻¹ +
        ((AllPassFilter.construct m frequency sr q).co.c2 : ℂ) * z⁻¹ ^ 2) /
        (1 + ((AllPassFilter.construct m frequency sr q).co.c3 : ℂ) * z⁻¹ +
        ((AllPassFilter.construct m frequency sr q).co.c4 : ℂ) * z⁻¹ ^ 2)) = 1) := by
  have hw : Complex.abs z⁻¹ = 1 := by rw [map_inv₀, hz, inv_one]
  obtain ⟨-, -, -, h2, h3, h4, -⟩ := construct_closed_form m frequency sr q h
  have hmain := mirrored_section_abs (AllPassFilter.construct m frequency sr q).co.c0
    (AllPassFilter.construct m frequency sr q).co.c1 z⁻¹ hw
  rw [h2, h3, h4, Complex.ofReal_one]
  refine ⟨hmain, fun hden => ?_⟩
  rw [map_div₀, hmain]
  exact div_self (fun h0 => hden ((map_eq_zero Complex.abs).1 h0))

/-- C3 at `frequency = 1000`, `sr = 44100`, `q = 0.707`, `z = 1` over the reals. -/
theorem C3_all_pass_unit_circle_witness :
    1 + Real.sin (2 * 3.14159265358979323846 * 1000 / 44100) * (2 * 0.707) ≠ 0 ∧
    Complex.abs (1 : ℂ) = 1 ∧
    Complex.abs (((AllPassFilter.construct
        (Libm.mk Real.sin Real.cos Real.exp Real.log Real.sqrt) 1000 44100 0.707).co.c0 : ℂ) +
      ((AllPassFilter.construct
        (Libm.mk Real.sin Real.cos Real.exp Real.log Real.sqrt) 1000 44100 0.707).co.c1 : ℂ) *
        (1 : ℂ)⁻¹ +
      ((AllPassFilter.construct
        (Libm.mk Real.sin Real.cos Real.exp Real.log Real.sqrt) 1000 44100 0.707).co.c2 : ℂ) *
        (1 : ℂ)⁻¹ ^ 2) =
    Complex.abs (1 + ((AllPassFilter.construct
        (Libm.mk Real.sin Real.cos Real.exp Real.log Real.sqrt) 1000 44100 0.707).co.c3 : ℂ) *
        (1 : ℂ)⁻¹ +
      ((AllPassFilter.construct
        (Libm.mk Real.sin Real.cos Real.exp Real.log Real.sqrt) 1000 44100 0.707).co.c4 : ℂ) *
        (1 : ℂ)⁻¹ ^ 2) :=
  ⟨ne_of_gt a0_pos_at_1000_44100, map_one Complex.abs,
    (C3_all_pass_unit_circle (Libm.mk Real.sin Real.cos Real.exp Real.log Real.sqrt)
      1000 44100 0.707 (ne_of_gt a0_pos_at_1000_44100) 1 (map_one Complex.abs)).1⟩

/-! ## Loops -/

theorem forLoopFrom_succ_last {σ : Type} (body : Int → σ → σ) (n : Nat) (i : Int) (s : σ) :
    forLoopFrom body (n + 1) i s = body (i + (n : Int)) (forLoopFrom body n i s) := by
  induction n generalizing i s with
  | zero => simp [forLoopFrom]
  | succ n ih =>
    have h := ih (i + 1) (body i s)
    have e : i + 1 + (n : Int) = i + ((n + 1 : Nat) : Int) := by push_cast; ring
    rw [e] at h
    exact h

theorem serialSignal_length {α : Type} [Add α] [Sub α] [Mul α] (bank : Int → AllPassFilter α) (x : List α) (k : Nat) :
    (serialSignal bank x k).length = x.length := by
  induction k with
  | zero => rfl
  | succ k ih => simp [serialSignal, processBlock_length, ih]

/-- The loop over the stages computes the serial pass of the specification. -/
theorem cascade_loop {α : Type} [LinearOrderedField α] (w : Work α) (n : Nat) :
    forLoopFrom phasedisperser.cascadeBody n 0 w =
      { filterL := serialBank w.filterL w.temp1 n,
        filterR := serialBank w.filterR w.temp2 n,
        temp1 := serialSignal w.filterL w.temp1 n,
        temp2 := serialSignal w.filterR w.temp2 n } := by
  induction n with
  | zero =>
    have hL : serialBank w.filterL w.temp1 0 = w.filterL := by
      funext j
      have : ¬ (0 ≤ j ∧ j < ((0 : Nat) : Int)) := by omega
      simp [serialBank, this]
    have hR : serialBank w.filterR w.temp2 0 = w.filterR := by
      funext j
      have : ¬ (0 ≤ j ∧ j < ((0 : Nat) : Int)) := by omega
      simp [serialBank, this]
    simp [forLoopFrom, hL, hR, serialSignal]
  | succ n ih =>
    rw [forLoopFrom_succ_last, ih, zero_add]
    have step : ∀ (bank : Int → AllPassFilter α) (x : List α),
        Function.update (serialBank bank x n) (n : Int)
          ((serialBank bank x n (n : Int)).processBlock (serialSignal bank x n)).1 =
        serialBank bank x (n + 1) := by
      intro bank x
      funext j
      by_cases hj : j = (n : Int)
      · subst hj
        have h1 : ¬ (0 ≤ (n : Int) ∧ (n : Int) < (n : Int)) := by omega
        have h2 : (0 ≤ (n : Int) ∧ (n : Int) < (n : Int) + 1) := by omega
        simp [serialBank, h1, h2]
      · have h3 : (0 ≤ j ∧ j < (n : Int) + 1) ↔ (0 ≤ j ∧ j < (n : Int)) := by omega
        simp [serialBank, hj, h3]
    have tail : ∀ (bank : Int → AllPassFilter α) (x : List α),
        ((serialBank bank x n (n : Int)).processBlock (serialSignal bank x n)).2 =
        serialSignal bank x (n + 1) := by
      intro bank x
      have h1 : ¬ (0 ≤ (n : Int) ∧ (n : Int) < (n : Int)) := by omega
      simp [serialBank, serialSignal, h1]
    simp only [phasedisperser.cascadeBody, step, tail]

section DriverLemmas

variable {α : Type} [LinearOrderedField α]

theorem filterAudio_open (a : Attributes α) (s : phasedisperser α) (t1 t2 : List α)
    (h : s.samplesSinceSilence < 16384 ∧ s.cur_iterations ≠ 0 ∧ 0 < a.a_mix) :
    phasedisperser.filterAudio a s t1 t2 =
      { filterL := serialBank s.filterL t1 s.cur_iterations.toNat,
        filterR := serialBank s.filterR t2 s.cur_iterations.toNat,
        temp1 := serialSignal s.filterL t1 s.cur_iterations.toNat,
        temp2 := serialSignal s.filterR t2 s.cur_iterations.toNat } := by
  have h' : s.samplesSinceSilence < deactivateAfterSamples ∧ s.cur_iterations ≠ 0 ∧
      a.a_mix > 0 := h
  rw [phasedisperser.filterAudio, if_pos h', forLoop, sub_zero, cascade_loop]

theorem filterAudio_closed (a : Attributes α) (s : phasedisperser α) (t1 t2 : List α)
    (h : ¬ (s.samplesSinceSilence < 16384 ∧ s.cur_iterations ≠ 0 ∧ 0 < a.a_mix)) :
    phasedisperser.filterAudio a s t1 t2 =
      { filterL := s.filterL, filterR := s.filterR, temp1 := t1, temp2 := t2 } := by
  have h' : ¬ (s.samplesSinceSilence < deactivateAfterSamples ∧ s.cur_iterations ≠ 0 ∧
      a.a_mix > 0) := h
  rw [phasedisperser.filterAudio, if_neg h']

theorem filterAudio_length (a : Attributes α) (s : phasedisperser α) (t1 t2 : List α) :
    (phasedisperser.filterAudio a s t1 t2).temp1.length = t1.length ∧
    (phasedisperser.filterAudio a s t1 t2).temp2.length = t2.length := by
  by_cases h : s.samplesSinceSilence < 16384 ∧ s.cur_iterations ≠ 0 ∧ 0 < a.a_mix
  · rw [filterAudio_open a s t1 t2 h]
    exact ⟨serialSignal_length _ _ _, serialSignal_length _ _ _⟩
  · rw [filterAudio_closed a s t1 t2 h]
    exact ⟨rfl, rfl⟩

/-- The output vectors of the last loop are the sample-wise blend of the working buffers
with the raw input. -/
theorem mixLoop_out (mix : α) (c : Int) (t1 t2 : List α) (input : List (α × α))
    (h1 : t1.length = input.length) (h2 : t2.length = input.length) :
    (phasedisperser.mixLoop mix c t1 t2 input).2.1 =
      List.zipWith (fun w x => w * mix + x * (1 - mix)) t1 (input.map Prod.fst) ∧
    (phasedisperser.mixLoop mix c t1 t2 input).2.2 =
      List.zipWith (fun w x => w * mix + x * (1 - mix)) t2 (input.map Prod.snd) := by
  induction input generalizing c t1 t2 with
  | nil =>
    cases t1 <;> cases t2 <;> simp [phasedisperser.mixLoop] at h1 h2 ⊢
  | cons f rest ih =>
    obtain ⟨x1, x2⟩ := f
    cases t1 with
    | nil => simp at h1
    | cons u1 r1 =>
      cases t2 with
      | nil => simp at h2
      | cons u2 r2 =>
        have e1 : r1.length = rest.length := by simpa using h1
        have e2 : r2.length = rest.length := by simpa using h2
        have h := ih (phasedisperser.silenceStep c u1 u2) r1 r2 e1 e2
        simp [phasedisperser.mixLoop, h.1, h.2]

theorem zipWith_left_blend (l1 l2 : List α) (h : l1.length = l2.length) :
    List.zipWith (fun w x => w * (1 : α) + x * (1 - 1)) l1 l2 = l1 := by
  induction l1 generalizing l2 with
  | nil => simp
  | cons u r ih =>
    cases l2 with
    | nil => simp at h
    | cons v r2 =>
      have e : r.length = r2.length := by simpa using h
      have h2 := ih r2 e
      simp only [List.zipWith_cons_cons, h2]
      simp

theorem operatorCall_closed [FloorRing α] (m : Libm α) (a : Attributes α)
    (s : phasedisperser α) (input : List (α × α))
    (h : ¬ ((phasedisperser.beforeFilter m a s input).samplesSinceSilence < 16384 ∧
      (phasedisperser.beforeFilter m a s input).cur_iterations ≠ 0 ∧ 0 < a.a_mix)) :
    (phasedisperser.operatorCall m a s input).self.filterL =
      (phasedisperser.beforeFilter m a s input).filterL ∧
    (phasedisperser.operatorCall m a s input).self.filterR =
      (phasedisperser.beforeFilter m a s input).filterR ∧
    (phasedisperser.operatorCall m a s input).temp1 = input.map Prod.fst ∧
    (phasedisperser.operatorCall m a s input).temp2 = input.map Prod.snd ∧
    (phasedisperser.operatorCall m a s input).out1 =
      (input.map Prod.fst).map (fun x => x * a.a_mix + x * (1 - a.a_mix)) ∧
    (phasedisperser.operatorCall m a s input).out2 =
      (input.map Prod.snd).map (fun x => x * a.a_mix + x * (1 - a.a_mix)) := by
  have hclosed := filterAudio_closed a (phasedisperser.beforeFilter m a s input)
    (input.map Prod.fst) (input.map Prod.snd) h
  have hT1 : (phasedisperser.operatorCall m a s input).temp1 = input.map Prod.fst := by
    show (phasedisperser.filterAudio a (phasedisperser.beforeFilter m a s input)
        (input.map Prod.fst) (input.map Prod.snd)).temp1 = _
    rw [hclosed]
  have hT2 : (phasedisperser.operatorCall m a s input).temp2 = input.map Prod.snd := by
    show (phasedisperser.filterAudio a (phasedisperser.beforeFilter m a s input)
        (input.map Prod.fst) (input.map Prod.snd)).temp2 = _
    rw [hclosed]
  have hL : (phasedisperser.operatorCall m a s input).self.filterL =
      (phasedisperser.beforeFilter m a s input).filterL := by
    show (phasedisperser.filterAudio a (phasedisperser.beforeFilter m a s input)
        (input.map Prod.fst) (input.map Prod.snd)).filterL = _
    rw [hclosed]
  have hR : (phasedisperser.operatorCall m a s input).self.filterR =
      (phasedisperser.beforeFilter m a s input).filterR := by
    show (phasedisperser.filterAudio a (phasedisperser.beforeFilter m a s input)
        (input.map Prod.fst) (input.map Prod.snd)).filterR = _
    rw [hclosed]
  have hout := mixLoop_out a.a_mix (phasedisperser.beforeFilter m a s input).samplesSinceSilence
    (phasedisperser.operatorCall m a s input).temp1
    (phasedisperser.operatorCall m a s input).temp2 input
    (by rw [hT1, List.length_map]) (by rw [hT2, List.length_map])
  refine ⟨hL, hR, hT1, hT2, ?_, ?_⟩
  · refine hout.1.trans ?_
    rw [hT1, List.zipWith_same]
  · refine hout.2.trans ?_
    rw [hT2, List.zipWith_same]

theorem operatorCall_out [FloorRing α] (m : Libm α) (a : Attributes α)
    (s : phasedisperser α) (input : List (α × α)) :
    (phasedisperser.operatorCall m a s input).temp1.length = input.length ∧
    (phasedisperser.operatorCall m a s input).temp2.length = input.length ∧
    (phasedisperser.operatorCall m a s input).out1 =
      List.zipWith (fun w x => w * a.a_mix + x * (1 - a.a_mix))
        (phasedisperser.operatorCall m a s input).temp1 (input.map Prod.fst) ∧
    (phasedisperser.operatorCall m a s input).out2 =
      List.zipWith (fun w x => w * a.a_mix + x * (1 - a.a_mix))
        (phasedisperser.operatorCall m a s input).temp2 (input.map Prod.snd) := by
  have hlen := filterAudio_length a (phasedisperser.beforeFilter m a s input)
    (input.map Prod.fst) (input.map Prod.snd)
  have hl1 : (phasedisperser.operatorCall m a s input).temp1.length = input.length := by
    have := hlen.1
    simpa [phasedisperser.operatorCall] using this
  have hl2 : (phasedisperser.operatorCall m a s input).temp2.length = input.length := by
    have := hlen.2
    simpa [phasedisperser.operatorCall] using this
  have hout := mixLoop_out a.a_mix (phasedisperser.beforeFilter m a s input).samplesSinceSilence
    (phasedisperser.operatorCall m a s input).temp1
    (phasedisperser.operatorCall m a s input).temp2 input hl1 hl2
  exact ⟨hl1, hl2, hout.1, hout.2⟩

end DriverLemmas

/-! ## The resize step -/

theorem copy_coefficients_from_self {α : Type} (f : AllPassFilter α) :
    f.copy_coefficients_from f = f := rfl

/-- The growth loop started at `last` copies the coefficients of stage `last` to the stages
after it and leaves everything else as it was. -/
theorem grow_loop {α : Type} (last : Int) (s : phasedisperser α) (n : Nat) :
    forLoopFrom (phasedisperser.growBody last) n last s =
      { s with
        filterL := fun j =>
          if last < j ∧ j < last + (n : Int) then
            (s.filterL j).copy_coefficients_from (s.filterL last)
          else s.filterL j,
        filterR := fun j =>
          if last < j ∧ j < last + (n : Int) then
            (s.filterR j).copy_coefficients_from (s.filterR last)
          else s.filterR j } := by
  induction n with
  | zero =>
    have e : ∀ j : Int, ¬ (last < j ∧ j < last) := by intro j; omega
    simp [forLoopFrom, e]
  | succ n ih =>
    rw [forLoopFrom_succ_last, ih]
    have step : ∀ bank : Int → AllPassFilter α,
        Function.update
          (fun j => if last < j ∧ j < last + (n : Int) then
            (bank j).copy_coefficients_from (bank last) else bank j)
          (last + (n : Int))
          ((if last < last + (n : Int) ∧ last + (n : Int) < last + (n : Int) then
              (bank (last + (n : Int))).copy_coefficients_from (bank last)
            else bank (last + (n : Int))).copy_coefficients_from
            (if last < last ∧ last < last + (n : Int) then
              (bank last).copy_coefficients_from (bank last) else bank last)) =
        fun j => if last < j ∧ j < last + ((n + 1 : Nat) : Int) then
            (bank j).copy_coefficients_from (bank last) else bank j := by
      intro bank
      funext j
      have h1 : ¬ (last < last + (n : Int) ∧ last + (n : Int) < last + (n : Int)) := by omega
      have h2 : ¬ (last < last ∧ last < last + (n : Int)) := by omega
      rw [if_neg h1, if_neg h2]
      by_cases hj : j = last + (n : Int)
      · subst hj
        rw [Function.update_same]
        by_cases h0 : n = 0
        · subst h0
          have h3 : ¬ (last < last + ((0 : Nat) : Int) ∧
              last + ((0 : Nat) : Int) < last + ((0 + 1 : Nat) : Int)) := by omega
          rw [if_neg h3]
          simp [copy_coefficients_from_self]
        · have h3 : last < last + (n : Int) ∧
              last + (n : Int) < last + ((n + 1 : Nat) : Int) := by omega
          rw [if_pos h3]
      · rw [Function.update_noteq hj]
        have h3 : (last < j ∧ j < last + ((n + 1 : Nat) : Int)) ↔
            (last < j ∧ j < last + (n : Int)) := by omega
        simp only [h3]
    simp only [phasedisperser.growBody, step]

section ResizeLemmas

variable {α : Type} [LinearOrderedField α]

/-- The loop of `setupFilters` started at 1 copies the coefficients of stage 0 to the stages
it visits (and resets them when the guard holds) and leaves everything else as it was. -/
theorem setup_loop (a : Attributes α) (s : phasedisperser α) (n : Nat) :
    forLoopFrom (phasedisperser.setupBody a) n 1 s =
      { s with
        filterL := fun j =>
          if 1 ≤ j ∧ j < 1 + (n : Int) then
            (if |a.a_frequency - s.last_freq| > a.a_frequency / 10 ∧ s.freq < 500 then
              ((s.filterL j).copy_coefficients_from (s.filterL 0)).reset
            else (s.filterL j).copy_coefficients_from (s.filterL 0))
          else s.filterL j,
        filterR := fun j =>
          if 1 ≤ j ∧ j < 1 + (n : Int) then
            (if |a.a_frequency - s.last_freq| > a.a_frequency / 10 ∧ s.freq < 500 then
              ((s.filterR j).copy_coefficients_from (s.filterR 0)).reset
            else (s.filterR j).copy_coefficients_from (s.filterR 0))
          else s.filterR j } := by
  induction n with
  | zero =>
    have e : ∀ j : Int, ¬ (1 ≤ j ∧ j < 1) := by intro j; omega
    simp [forLoopFrom, e]
  | succ n ih =>
    rw [forLoopFrom_succ_last, ih]
    have h1 : ¬ (1 ≤ (1 : Int) + (n : Int) ∧ (1 : Int) + (n : Int) < 1 + (n : Int)) := by omega
    have h2 : ¬ (1 ≤ (0 : Int) ∧ (0 : Int) < 1 + (n : Int)) := by omega
    have step : ∀ (bank : Int → AllPassFilter α) (g : AllPassFilter α → AllPassFilter α),
        Function.update
          (fun j => if 1 ≤ j ∧ j < 1 + (n : Int) then g (bank j) else bank j)
          (1 + (n : Int)) (g (bank (1 + (n : Int)))) =
        fun j => if 1 ≤ j ∧ j < 1 + ((n + 1 : Nat) : Int) then g (bank j) else bank j := by
      intro bank g
      funext j
      by_cases hj : j = 1 + (n : Int)
      · subst hj
        have h3 : 1 ≤ (1 : Int) + (n : Int) ∧
            (1 : Int) + (n : Int) < 1 + ((n + 1 : Nat) : Int) := by omega
        rw [Function.update_same, if_pos h3]
      · rw [Function.update_noteq hj]
        have h3 : (1 ≤ j ∧ j < 1 + ((n + 1 : Nat) : Int)) ↔ (1 ≤ j ∧ j < 1 + (n : Int)) := by
          omega
        simp only [h3]
    by_cases hc : |a.a_frequency - s.last_freq| > a.a_frequency / 10 ∧ s.freq < 500
    · simp only [phasedisperser.setupBody, hc, if_true, and_self, if_neg h1, if_neg h2,
        Function.update_same, Function.update_idem]
      rw [step s.filterL (fun f => (f.copy_coefficients_from (s.filterL 0)).reset),
        step s.filterR (fun f => (f.copy_coefficients_from (s.filterR 0)).reset)]
    · simp only [phasedisperser.setupBody, hc, if_false, if_neg h1, if_neg h2]
      rw [step s.filterL (fun f => f.copy_coefficients_from (s.filterL 0)),
        step s.filterR (fun f => f.copy_coefficients_from (s.filterR 0))]

theorem resize_cur_iterations [FloorRing α] (m : Libm α) (a : Attributes α)
    (s : phasedisperser α) :
    (phasedisperser.resize m a s).cur_iterations = phasedisperser.toLong a.a_intensity := by
  unfold phasedisperser.resize
  by_cases h1 : phasedisperser.toLong a.a_intensity > s.cur_iterations
  · simp only [h1, if_true]
  · by_cases h2 : phasedisperser.toLong a.a_intensity < s.cur_iterations
    · simp only [h1, h2, if_true, if_false]
    · simp only [h1, h2, if_false]
      omega

/-- The resize step on the growth path. -/
theorem resize_grow [FloorRing α] (m : Libm α) (a : Attributes α) (s : phasedisperser α)
    (hk : 0 < s.cur_iterations)
    (hn : s.cur_iterations < phasedisperser.toLong a.a_intensity) :
    phasedisperser.resize m a s =
      { s with
        filterL := fun j =>
          if s.cur_iterations ≤ j ∧ j < phasedisperser.toLong a.a_intensity then
            (s.filterL j).copy_coefficients_from (s.filterL (s.cur_iterations - 1))
          else s.filterL j,
        filterR := fun j =>
          if s.cur_iterations ≤ j ∧ j < phasedisperser.toLong a.a_intensity then
            (s.filterR j).copy_coefficients_from (s.filterR (s.cur_iterations - 1))
          else s.filterR j,
        cur_iterations := phasedisperser.toLong a.a_intensity } := by
  have h1 : phasedisperser.toLong a.a_intensity > s.cur_iterations := hn
  have h2 : s.cur_iterations > 0 := hk
  have hr : ∀ j : Int,
      (s.cur_iterations - 1 < j ∧ j < s.cur_iterations - 1 +
        ((phasedisperser.toLong a.a_intensity - (s.cur_iterations - 1)).toNat : Int)) ↔
      (s.cur_iterations ≤ j ∧ j < phasedisperser.toLong a.a_intensity) := by
    intro j
    omega
  simp only [phasedisperser.resize, h1, h2, if_true, forLoop, grow_loop, hr]

/-- The resize step on the first-time path. -/
theorem resize_setup [FloorRing α] (m : Libm α) (a : Attributes α) (s : phasedisperser α)
    (hk : s.cur_iterations = 0) (hn : 0 < phasedisperser.toLong a.a_intensity) :
    phasedisperser.resize m a s =
      { phasedisperser.setupFilters m a s with
        cur_iterations := phasedisperser.toLong a.a_intensity } := by
  have h1 : phasedisperser.toLong a.a_intensity > s.cur_iterations := by rw [hk]; exact hn
  have h2 : ¬ (s.cur_iterations > 0) := by rw [hk]; decide
  simp only [phasedisperser.resize, h1, h2, if_true, if_false]

/-- The banks `setupFilters` leaves: stage 0 is freshly constructed, the stages `i ≥ 1` with
`i < a_intensity` get its coefficients (and are reset when the guard holds), every other
stage is as it was. -/
theorem setupFilters_banks [FloorRing α] (m : Libm α) (a : Attributes α)
    (s : phasedisperser α) :
    (phasedisperser.setupFilters m a s).filterL 0 =
      AllPassFilter.construct m ((phasedisperser.setupFilters m a s).freq : α) 44100
        (phasedisperser.setupFilters m a s).q ∧
    (phasedisperser.setupFilters m a s).filterR 0 =
      AllPassFilter.construct m ((phasedisperser.setupFilters m a s).freq : α) 44100
        (phasedisperser.setupFilters m a s).q ∧
    (phasedisperser.setupFilters m a s).freq =
      ⌊m.exp ((16 + a.a_frequency * 100 * 1.20103) * m.log 1.059) * 8.17742⌋ ∧
    (phasedisperser.setupFilters m a s).q =
      (if a.a_q * m.sqrt 2 ≤ 0.005 then 0.005 else a.a_q * m.sqrt 2) ∧
    (∀ i : Int, 1 ≤ i → (i : α) < a.a_intensity →
      ((phasedisperser.setupFilters m a s).filterL i).co =
        ((phasedisperser.setupFilters m a s).filterL 0).co ∧
      ((phasedisperser.setupFilters m a s).filterR i).co =
        ((phasedisperser.setupFilters m a s).filterR 0).co) ∧
    (∀ i : Int, i ≠ 0 → ¬ (1 ≤ i ∧ (i : α) < a.a_intensity) →
      (phasedisperser.setupFilters m a s).filterL i = s.filterL i ∧
      (phasedisperser.setupFilters m a s).filterR i = s.filterR i) := by
  have hr : ∀ j : Int, (1 ≤ j ∧ j < 1 + ((⌈a.a_intensity⌉ - 1).toNat : Int)) ↔
      (1 ≤ j ∧ (j : α) < a.a_intensity) := by
    intro j
    rw [← Int.lt_ceil]
    omega
  have h0 : ¬ (1 ≤ (0 : Int) ∧ ((0 : Int) : α) < a.a_intensity) := by
    intro h; exact absurd h.1 (by decide)
  simp only [phasedisperser.setupFilters, forLoop, setup_loop, hr]
  refine ⟨?_, ?_, trivial, trivial, ?_, ?_⟩
  · simp only [if_neg h0, Function.update_same]
  · simp only [if_neg h0, Function.update_same]
  · intro i hi1 hi2
    have hin : 1 ≤ i ∧ (i : α) < a.a_intensity := ⟨hi1, hi2⟩
    simp only [if_pos hin, if_neg h0, Function.update_same]
    constructor <;> split <;> rfl
  · intro i hi0 hi
    simp only [if_neg hi, Function.update_noteq hi0, and_self]

theorem toLong_natCast [FloorRing α] (n : ℕ) : phasedisperser.toLong (n : α) = (n : Int) := by
  simp [phasedisperser.toLong]

theorem toLong_five : phasedisperser.toLong (5 : ℝ) = 5 := by
  simpa using @toLong_natCast ℝ _ _ 5

theorem toLong_ten : phasedisperser.toLong (10 : ℝ) = 10 := by
  simpa using @toLong_natCast ℝ _ _ 10

theorem toLong_twentyfive : phasedisperser.toLong (25 : ℝ) = 25 := by
  simpa using @toLong_natCast ℝ _ _ 25

theorem operatorCall_cur_iterations [FloorRing α] (m : Libm α) (a : Attributes α)
    (s : phasedisperser α) (input : List (α × α)) :
    (phasedisperser.operatorCall m a s input).self.cur_iterations =
      phasedisperser.toLong a.a_intensity :=
  resize_cur_iterations m a s

end ResizeLemmas

/-! ## C4, C5, C6 -/

section ClaimsC4C5C6

variable {α : Type} [LinearOrderedField α] [FloorRing α]

/-- C4: when the filter gate is open in a block (silence counter after the input scan below
16384, active count `k > 0`, `mix > 0`), the working signal of each channel is the raw input
passed through stages `0, ..., k-1` of that channel in index order, each stage being advanced
exactly once by its `processBlock` call on the output of the stage before it, the stages
outside `[0, k)` are untouched, and every output sample is
`working[i]*mix + in[i]*(1-mix)` in each channel. -/
theorem C4_open_gate_serial_cascade (m : Libm α) (a : Attributes α) (s : phasedisperser α)
    (input : List (α × α))
    (hc : (phasedisperser.beforeFilter m a s input).samplesSinceSilence < 16384)
    (hk : 0 < (phasedisperser.beforeFilter m a s input).cur_iterations)
    (hmix : 0 < a.a_mix) :
    (phasedisperser.operatorCall m a s input).temp1 =
      serialSignal (phasedisperser.beforeFilter m a s input).filterL (input.map Prod.fst)
        (phasedisperser.beforeFilter m a s input).cur_iterations.toNat ∧
    (phasedisperser.operatorCall m a s input).temp2 =
      serialSignal (phasedisperser.beforeFilter m a s input).filterR (input.map Prod.snd)
        (phasedisperser.beforeFilter m a s input).cur_iterations.toNat ∧
    (∀ j : Int, 0 ≤ j → j < (phasedisperser.beforeFilter m a s input).cur_iterations →
      (phasedisperser.operatorCall m a s input).self.filterL j =
        (((phasedisperser.beforeFilter m a s input).filterL j).processBlock
          (serialSignal (phasedisperser.beforeFilter m a s input).filterL
            (input.map Prod.fst) j.toNat)).1 ∧
      (phasedisperser.operatorCall m a s input).self.filterR j =
        (((phasedisperser.beforeFilter m a s input).filterR j).processBlock
          (serialSignal (phasedisperser.beforeFilter m a s input).filterR
            (input.map Prod.snd) j.toNat)).1) ∧
    (∀ j : Int, ¬ (0 ≤ j ∧ j < (phasedisperser.beforeFilter m a s input).cur_iterations) →
      (phasedisperser.operatorCall m a s input).self.filterL j =
        (phasedisperser.beforeFilter m a s input).filterL j ∧
      (phasedisperser.operatorCall m a s input).self.filterR j =
        (phasedisperser.beforeFilter m a s input).filterR j) ∧
    (phasedisperser.operatorCall m a s input).temp1.length = input.length ∧
    (phasedisperser.operatorCall m a s input).temp2.length = input.length ∧
    (phasedisperser.operatorCall m a s input).out1 =
      List.zipWith (fun w x => w * a.a_mix + x * (1 - a.a_mix))
        (phasedisperser.operatorCall m a s input).temp1 (input.map Prod.fst) ∧
    (phasedisperser.operatorCall m a s input).out2 =
      List.zipWith (fun w x => w * a.a_mix + x * (1 - a.a_mix))
        (phasedisperser.operatorCall m a s input).temp2 (input.map Prod.snd) := by
  have hopen := filterAudio_open a (phasedisperser.beforeFilter m a s input)
    (input.map Prod.fst) (input.map Prod.snd) ⟨hc, ne_of_gt hk, hmix⟩
  have hlen := filterAudio_length a (phasedisperser.beforeFilter m a s input)
    (input.map Prod.fst) (input.map Prod.snd)
  have hl1 : (phasedisperser.operatorCall m a s input).temp1.length = input.length := by
    have := hlen.1
    simpa [phasedisperser.operatorCall] using this
  have hl2 : (phasedisperser.operatorCall m a s input).temp2.length = input.length := by
    have := hlen.2
    simpa [phasedisperser.operatorCall] using this
  have hout := mixLoop_out a.a_mix (phasedisperser.beforeFilter m a s input).samplesSinceSilence
    (phasedisperser.operatorCall m a s input).temp1
    (phasedisperser.operatorCall m a s input).temp2 input hl1 hl2
  have hnat : ((phasedisperser.beforeFilter m a s input).cur_iterations.toNat : Int) =
      (phasedisperser.beforeFilter m a s input).cur_iterations :=
    Int.toNat_of_nonneg (le_of_lt hk)
  have hT1 : (phasedisperser.operatorCall m a s input).temp1 =
      (phasedisperser.filterAudio a (phasedisperser.beforeFilter m a s input)
        (input.map Prod.fst) (input.map Prod.snd)).temp1 := rfl
  have hT2 : (phasedisperser.operatorCall m a s input).temp2 =
      (phasedisperser.filterAudio a (phasedisperser.beforeFilter m a s input)
        (input.map Prod.fst) (input.map Prod.snd)).temp2 := rfl
  have hL : (phasedisperser.operatorCall m a s input).self.filterL =
      (phasedisperser.filterAudio a (phasedisperser.beforeFilter m a s input)
        (input.map Prod.fst) (input.map Prod.snd)).filterL := rfl
  have hR : (phasedisperser.operatorCall m a s input).self.filterR =
      (phasedisperser.filterAudio a (phasedisperser.beforeFilter m a s input)
        (input.map Prod.fst) (input.map Prod.snd)).filterR := rfl
  refine ⟨by rw [hT1, hopen], by rw [hT2, hopen], ?_, ?_, hl1, hl2, hout.1, hout.2⟩
  · intro j h0 hj
    have hin : 0 ≤ j ∧
        j < ((phasedisperser.beforeFilter m a s input).cur_iterations.toNat : Int) := by
      rw [hnat]; exact ⟨h0, hj⟩
    rw [hL, hR, hopen]
    simp only [serialBank, if_pos hin, and_self]
  · intro j hj
    have hout : ¬ (0 ≤ j ∧
        j < ((phasedisperser.beforeFilter m a s input).cur_iterations.toNat : Int)) := by
      rw [hnat]; exact hj
    rw [hL, hR, hopen]
    simp only [serialBank, if_neg hout, and_self]

/-- C4 on the object as constructed with the default attributes, at a block of one frame
`(1, 1)` over the reals. -/
theorem C4_open_gate_serial_cascade_witness :
    (phasedisperser.beforeFilter (Libm.mk Real.sin Real.cos Real.exp Real.log Real.sqrt)
      phasedisperser.defaultAttributes phasedisperser.initial
      [((1 : ℝ), (1 : ℝ))]).samplesSinceSilence < 16384 ∧
    0 < (phasedisperser.beforeFilter (Libm.mk Real.sin Real.cos Real.exp Real.log Real.sqrt)
      phasedisperser.defaultAttributes phasedisperser.initial
      [((1 : ℝ), (1 : ℝ))]).cur_iterations ∧
    (0 : ℝ) < (phasedisperser.defaultAttributes : Attributes ℝ).a_mix ∧
    (phasedisperser.operatorCall (Libm.mk Real.sin Real.cos Real.exp Real.log Real.sqrt)
      phasedisperser.defaultAttributes phasedisperser.initial [((1 : ℝ), (1 : ℝ))]).temp1 =
      serialSignal
        (phasedisperser.beforeFilter (Libm.mk Real.sin Real.cos Real.exp Real.log Real.sqrt)
          phasedisperser.defaultAttributes phasedisperser.initial
          [((1 : ℝ), (1 : ℝ))]).filterL
        ([((1 : ℝ), (1 : ℝ))].map Prod.fst)
        (phasedisperser.beforeFilter (Libm.mk Real.sin Real.cos Real.exp Real.log Real.sqrt)
          phasedisperser.defaultAttributes phasedisperser.initial
          [((1 : ℝ), (1 : ℝ))]).cur_iterations.toNat := by
  have hc : (phasedisperser.beforeFilter
      (Libm.mk Real.sin Real.cos Real.exp Real.log Real.sqrt)
      phasedisperser.defaultAttributes phasedisperser.initial
      [((1 : ℝ), (1 : ℝ))]).samplesSinceSilence < 16384 := by
    have hloud : |(1 : ℝ)| ≥ phasedisperser.noiseFloor ∨
        |(1 : ℝ)| ≥ phasedisperser.noiseFloor := by
      left
      unfold phasedisperser.noiseFloor
      rw [abs_one]; norm_num
    simp only [phasedisperser.beforeFilter, phasedisperser.copyInput, if_pos hloud]
    decide
  have hk : 0 < (phasedisperser.beforeFilter
      (Libm.mk Real.sin Real.cos Real.exp Real.log Real.sqrt)
      phasedisperser.defaultAttributes phasedisperser.initial
      [((1 : ℝ), (1 : ℝ))]).cur_iterations := by
    show 0 < (phasedisperser.resize _ _ _).cur_iterations
    rw [resize_cur_iterations]
    show 0 < phasedisperser.toLong (25 : ℝ)
    rw [toLong_twentyfive]; decide
  have hmix : (0 : ℝ) < (phasedisperser.defaultAttributes : Attributes ℝ).a_mix := by
    show (0 : ℝ) < 0.8
    norm_num
  exact ⟨hc, hk, hmix, (C4_open_gate_serial_cascade _ _ _ _ hc hk hmix).1⟩

/-- C5: the cascade is run in a block exactly when, after the raw-input scan,
`samplesSinceSilence < 16384`, the active count is non-zero and `mix > 0`: under that
condition the banks and working buffers handed to the last loop are those the loop over the
stages `0, ..., cur_iterations - 1` leaves; when the condition is false no stage of either
channel is changed by the filtering step, the working buffers equal the raw input and
`out[i] = in[i]*mix + in[i]*(1-mix)` for every sample. -/
theorem C5_gate_condition_and_frame (m : Libm α) (a : Attributes α) (s : phasedisperser α)
    (input : List (α × α)) :
    (((phasedisperser.beforeFilter m a s input).samplesSinceSilence < 16384 ∧
        (phasedisperser.beforeFilter m a s input).cur_iterations ≠ 0 ∧ 0 < a.a_mix) →
      Work.mk (phasedisperser.operatorCall m a s input).self.filterL
          (phasedisperser.operatorCall m a s input).self.filterR
          (phasedisperser.operatorCall m a s input).temp1
          (phasedisperser.operatorCall m a s input).temp2 =
        forLoop 0 (phasedisperser.beforeFilter m a s input).cur_iterations
          phasedisperser.cascadeBody
          (Work.mk (phasedisperser.beforeFilter m a s input).filterL
            (phasedisperser.beforeFilter m a s input).filterR
            (input.map Prod.fst) (input.map Prod.snd))) ∧
    (¬ ((phasedisperser.beforeFilter m a s input).samplesSinceSilence < 16384 ∧
        (phasedisperser.beforeFilter m a s input).cur_iterations ≠ 0 ∧ 0 < a.a_mix) →
      (phasedisperser.operatorCall m a s input).self.filterL =
        (phasedisperser.beforeFilter m a s input).filterL ∧
      (phasedisperser.operatorCall m a s input).self.filterR =
        (phasedisperser.beforeFilter m a s input).filterR ∧
      (phasedisperser.operatorCall m a s input).temp1 = input.map Prod.fst ∧
      (phasedisperser.operatorCall m a s input).temp2 = input.map Prod.snd ∧
      (phasedisperser.operatorCall m a s input).out1 =
        (input.map Prod.fst).map (fun x => x * a.a_mix + x * (1 - a.a_mix)) ∧
      (phasedisperser.operatorCall m a s input).out2 =
        (input.map Prod.snd).map (fun x => x * a.a_mix + x * (1 - a.a_mix))) := by
  refine ⟨fun h => ?_, fun h => operatorCall_closed m a s input h⟩
  have h' : (phasedisperser.beforeFilter m a s input).samplesSinceSilence <
      deactivateAfterSamples ∧
      (phasedisperser.beforeFilter m a s input).cur_iterations ≠ 0 ∧ a.a_mix > 0 := h
  show Work.mk
      (phasedisperser.filterAudio a (phasedisperser.beforeFilter m a s input)
        (input.map Prod.fst) (input.map Prod.snd)).filterL
      (phasedisperser.filterAudio a (phasedisperser.beforeFilter m a s input)
        (input.map Prod.fst) (input.map Prod.snd)).filterR
      (phasedisperser.filterAudio a (phasedisperser.beforeFilter m a s input)
        (input.map Prod.fst) (input.map Prod.snd)).temp1
      (phasedisperser.filterAudio a (phasedisperser.beforeFilter m a s input)
        (input.map Prod.fst) (input.map Prod.snd)).temp2 = _
  rw [phasedisperser.filterAudio, if_pos h']

/-- C5 on the object as constructed at a block with `mix = 0` (gate closed) over the
reals. -/
theorem C5_gate_condition_and_frame_witness :
    (phasedisperser.operatorCall (Libm.mk Real.sin Real.cos Real.exp Real.log Real.sqrt)
      (Attributes.mk 700 25 0.7 0) phasedisperser.initial [((1 : ℝ), (1 : ℝ))]).temp1 =
      [((1 : ℝ), (1 : ℝ))].map Prod.fst ∧
    (phasedisperser.operatorCall (Libm.mk Real.sin Real.cos Real.exp Real.log Real.sqrt)
      (Attributes.mk 700 25 0.7 0) phasedisperser.initial [((1 : ℝ), (1 : ℝ))]).self.filterL =
      (phasedisperser.beforeFilter (Libm.mk Real.sin Real.cos Real.exp Real.log Real.sqrt)
        (Attributes.mk 700 25 0.7 0) phasedisperser.initial [((1 : ℝ), (1 : ℝ))]).filterL := by
  have h := (C5_gate_condition_and_frame
    (Libm.mk Real.sin Real.cos Real.exp Real.log Real.sqrt)
    (Attributes.mk 700 25 0.7 0) phasedisperser.initial [((1 : ℝ), (1 : ℝ))]).2
    (fun hg => lt_irrefl (0 : ℝ) hg.2.2)
  exact ⟨h.2.2.1, h.1⟩

/-- C6: mix boundary.  If `mix = 0` every output sample equals the raw input sample in both
channels and the cascade is not run (no stage changes, the working buffers are the raw
input); if `mix = 1` every output sample equals the sample of the working signal. -/
theorem C6_mix_boundary (m : Libm α) (a : Attributes α) (s : phasedisperser α)
    (input : List (α × α)) :
    (a.a_mix = 0 →
      (phasedisperser.operatorCall m a s input).out1 = input.map Prod.fst ∧
      (phasedisperser.operatorCall m a s input).out2 = input.map Prod.snd ∧
      (phasedisperser.operatorCall m a s input).self.filterL =
        (phasedisperser.beforeFilter m a s input).filterL ∧
      (phasedisperser.operatorCall m a s input).self.filterR =
        (phasedisperser.beforeFilter m a s input).filterR ∧
      (phasedisperser.operatorCall m a s input).temp1 = input.map Prod.fst ∧
      (phasedisperser.operatorCall m a s input).temp2 = input.map Prod.snd) ∧
    (a.a_mix = 1 →
      (phasedisperser.operatorCall m a s input).out1 =
        (phasedisperser.operatorCall m a s input).temp1 ∧
      (phasedisperser.operatorCall m a s input).out2 =
        (phasedisperser.operatorCall m a s input).temp2) := by
  constructor
  · intro h0
    have hgate : ¬ ((phasedisperser.beforeFilter m a s input).samplesSinceSilence < 16384 ∧
        (phasedisperser.beforeFilter m a s input).cur_iterations ≠ 0 ∧ 0 < a.a_mix) := by
      rw [h0]; simp
    obtain ⟨hL, hR, hT1, hT2, ho1, ho2⟩ := operatorCall_closed m a s input hgate
    refine ⟨?_, ?_, hL, hR, hT1, hT2⟩
    · rw [ho1, h0]; simp
    · rw [ho2, h0]; simp
  · intro h1
    obtain ⟨hl1, hl2, ho1, ho2⟩ := operatorCall_out m a s input
    constructor
    · rw [ho1, h1]
      exact zipWith_left_blend _ _ (by rw [hl1, List.length_map])
    · rw [ho2, h1]
      exact zipWith_left_blend _ _ (by rw [hl2, List.length_map])

/-- C6 on the object as constructed at a block of one frame `(1, 1)`, with `mix = 0` and
with `mix = 1`, over the reals. -/
theorem C6_mix_boundary_witness :
    (phasedisperser.operatorCall (Libm.mk Real.sin Real.cos Real.exp Real.log Real.sqrt)
      (Attributes.mk 700 25 0.7 0) phasedisperser.initial [((1 : ℝ), (1 : ℝ))]).out1 =
      [((1 : ℝ), (1 : ℝ))].map Prod.fst ∧
    (phasedisperser.operatorCall (Libm.mk Real.sin Real.cos Real.exp Real.log Real.sqrt)
      (Attributes.mk 700 25 0.7 1) phasedisperser.initial [((1 : ℝ), (1 : ℝ))]).out1 =
    (phasedisperser.operatorCall (Libm.mk Real.sin Real.cos Real.exp Real.log Real.sqrt)
      (Attributes.mk 700 25 0.7 1) phasedisperser.initial [((1 : ℝ), (1 : ℝ))]).temp1 :=
  ⟨((C6_mix_boundary (Libm.mk Real.sin Real.cos Real.exp Real.log Real.sqrt)
      (Attributes.mk 700 25 0.7 0) phasedisperser.initial [((1 : ℝ), (1 : ℝ))]).1 rfl).1,
    ((C6_mix_boundary (Libm.mk Real.sin Real.cos Real.exp Real.log Real.sqrt)
      (Attributes.mk 700 25 0.7 1) phasedisperser.initial [((1 : ℝ), (1 : ℝ))]).2 rfl).1⟩

end ClaimsC4C5C6

/-! ## C8, C9, C10 -/

section ClaimsC8C9C10

variable {α : Type} [LinearOrderedField α] [FloorRing α]

/-- C8: cascade growth.  When a block starts with intensity `n = (long) a_intensity` greater
than the active count `k` and `k > 0`, after the resize step every stage with index in
`[k, n)` of each channel has the five coefficients of stage `k-1` of that channel, the
coefficients of the stages below `k` are unchanged, the stages from `n` on are unchanged, no
stage's state variables are modified, and the active count is `n`. -/
theorem C8_cascade_growth (m : Libm α) (a : Attributes α) (s : phasedisperser α)
    (hk : 0 < s.cur_iterations)
    (hn : s.cur_iterations < phasedisperser.toLong a.a_intensity) :
    (∀ i : Int, s.cur_iterations ≤ i → i < phasedisperser.toLong a.a_intensity →
      ((phasedisperser.resize m a s).filterL i).co = (s.filterL (s.cur_iterations - 1)).co ∧
      ((phasedisperser.resize m a s).filterR i).co = (s.filterR (s.cur_iterations - 1)).co) ∧
    (∀ i : Int, i < s.cur_iterations →
      ((phasedisperser.resize m a s).filterL i).co = (s.filterL i).co ∧
      ((phasedisperser.resize m a s).filterR i).co = (s.filterR i).co) ∧
    (∀ i : Int, phasedisperser.toLong a.a_intensity ≤ i →
      (phasedisperser.resize m a s).filterL i = s.filterL i ∧
      (phasedisperser.resize m a s).filterR i = s.filterR i) ∧
    (∀ i : Int,
      ((phasedisperser.resize m a s).filterL i).xm1 = (s.filterL i).xm1 ∧
      ((phasedisperser.resize m a s).filterL i).xm2 = (s.filterL i).xm2 ∧
      ((phasedisperser.resize m a s).filterL i).ym1 = (s.filterL i).ym1 ∧
      ((phasedisperser.resize m a s).filterL i).ym2 = (s.filterL i).ym2 ∧
      ((phasedisperser.resize m a s).filterR i).xm1 = (s.filterR i).xm1 ∧
      ((phasedisperser.resize m a s).filterR i).xm2 = (s.filterR i).xm2 ∧
      ((phasedisperser.resize m a s).filterR i).ym1 = (s.filterR i).ym1 ∧
      ((phasedisperser.resize m a s).filterR i).ym2 = (s.filterR i).ym2) ∧
    (phasedisperser.resize m a s).cur_iterations = phasedisperser.toLong a.a_intensity := by
  rw [resize_grow m a s hk hn]
  refine ⟨?_, ?_, ?_, ?_, rfl⟩
  · intro i h1 h2
    have hin : s.cur_iterations ≤ i ∧ i < phasedisperser.toLong a.a_intensity := ⟨h1, h2⟩
    simp only [if_pos hin]
    exact ⟨rfl, rfl⟩
  · intro i h1
    have hout : ¬ (s.cur_iterations ≤ i ∧ i < phasedisperser.toLong a.a_intensity) := by omega
    simp only [if_neg hout, and_self]
  · intro i h1
    have hout : ¬ (s.cur_iterations ≤ i ∧ i < phasedisperser.toLong a.a_intensity) := by omega
    simp only [if_neg hout, and_self]
  · intro i
    by_cases hin : s.cur_iterations ≤ i ∧ i < phasedisperser.toLong a.a_intensity
    · simp only [if_pos hin]
      exact ⟨rfl, rfl, rfl, rfl, rfl, rfl, rfl, rfl⟩
    · simp only [if_neg hin, and_self]

/-- C8 on the object left by a first block with intensity 5, at a block with intensity 10. -/
theorem C8_cascade_growth_witness :
    0 < (phasedisperser.operatorCall (Libm.mk Real.sin Real.cos Real.exp Real.log Real.sqrt)
      (Attributes.mk 700 5 0.7 0.8) phasedisperser.initial []).self.cur_iterations ∧
    (phasedisperser.operatorCall (Libm.mk Real.sin Real.cos Real.exp Real.log Real.sqrt)
      (Attributes.mk 700 5 0.7 0.8) phasedisperser.initial []).self.cur_iterations <
      phasedisperser.toLong (Attributes.mk (700 : ℝ) 10 0.7 0.8).a_intensity ∧
    (phasedisperser.resize (Libm.mk Real.sin Real.cos Real.exp Real.log Real.sqrt)
      (Attributes.mk 700 10 0.7 0.8)
      (phasedisperser.operatorCall (Libm.mk Real.sin Real.cos Real.exp Real.log Real.sqrt)
        (Attributes.mk 700 5 0.7 0.8) phasedisperser.initial []).self).cur_iterations =
      phasedisperser.toLong (Attributes.mk (700 : ℝ) 10 0.7 0.8).a_intensity := by
  have hk : 0 < (phasedisperser.operatorCall
      (Libm.mk Real.sin Real.cos Real.exp Real.log Real.sqrt)
      (Attributes.mk 700 5 0.7 0.8) phasedisperser.initial []).self.cur_iterations := by
    rw [operatorCall_cur_iterations]
    show 0 < phasedisperser.toLong (5 : ℝ)
    rw [toLong_five]; decide
  have hn : (phasedisperser.operatorCall
      (Libm.mk Real.sin Real.cos Real.exp Real.log Real.sqrt)
      (Attributes.mk 700 5 0.7 0.8) phasedisperser.initial []).self.cur_iterations <
      phasedisperser.toLong (Attributes.mk (700 : ℝ) 10 0.7 0.8).a_intensity := by
    rw [operatorCall_cur_iterations]
    show phasedisperser.toLong (5 : ℝ) < phasedisperser.toLong (10 : ℝ)
    rw [toLong_five, toLong_ten]; decide
  exact ⟨hk, hn, (C8_cascade_growth _ _ _ hk hn).2.2.2.2⟩

/-- C9 (amended): first-time rebuild.  When the resize step runs `setupFilters` (active
count 0, intensity at least 1), afterwards stage 0 of each channel is the freshly
constructed stage, every stage `i` with `1 ≤ i < a_intensity` holds the coefficients of
stage 0, and every stage `i ≥ 1` that is not below `a_intensity` is exactly as it was. -/
theorem C9_first_rebuild_fills_active_range (m : Libm α) (a : Attributes α)
    (s : phasedisperser α) (hk : s.cur_iterations = 0) (hn : 1 ≤ a.a_intensity) :
    (phasedisperser.resize m a s).filterL 0 =
      AllPassFilter.construct m ((phasedisperser.resize m a s).freq : α) 44100
        (phasedisperser.resize m a s).q ∧
    (phasedisperser.resize m a s).filterR 0 =
      AllPassFilter.construct m ((phasedisperser.resize m a s).freq : α) 44100
        (phasedisperser.resize m a s).q ∧
    (∀ i : Int, 1 ≤ i → (i : α) < a.a_intensity →
      ((phasedisperser.resize m a s).filterL i).co =
        ((phasedisperser.resize m a s).filterL 0).co ∧
      ((phasedisperser.resize m a s).filterR i).co =
        ((phasedisperser.resize m a s).filterR 0).co) ∧
    (∀ i : Int, 1 ≤ i → ¬ ((i : α) < a.a_intensity) →
      (phasedisperser.resize m a s).filterL i = s.filterL i ∧
      (phasedisperser.resize m a s).filterR i = s.filterR i) := by
  have hpos : 0 < phasedisperser.toLong a.a_intensity := by
    have h0 : (0 : α) ≤ a.a_intensity := le_trans zero_le_one hn
    have h1 : (1 : Int) ≤ ⌊a.a_intensity⌋ := Int.le_floor.2 (by simpa using hn)
    simp only [phasedisperser.toLong, if_pos h0]
    omega
  rw [resize_setup m a s hk hpos]
  obtain ⟨hL, hR, -, -, hin, hout⟩ := setupFilters_banks m a s
  refine ⟨hL, hR, hin, ?_⟩
  intro i h1 h2
  exact hout i (by omega) (fun h => h2 h.2)

/-- C9 (amended) at the object as constructed and the default attributes over the reals. -/
theorem C9_first_rebuild_fills_active_range_witness :
    (phasedisperser.initial : phasedisperser ℝ).cur_iterations = 0 ∧
    (1 : ℝ) ≤ (phasedisperser.defaultAttributes : Attributes ℝ).a_intensity ∧
    (∀ i : Int, 1 ≤ i →
      (i : ℝ) < (phasedisperser.defaultAttributes : Attributes ℝ).a_intensity →
      ((phasedisperser.resize (Libm.mk Real.sin Real.cos Real.exp Real.log Real.sqrt)
        phasedisperser.defaultAttributes phasedisperser.initial).filterL i).co =
      ((phasedisperser.resize (Libm.mk Real.sin Real.cos Real.exp Real.log Real.sqrt)
        phasedisperser.defaultAttributes phasedisperser.initial).filterL 0).co ∧
      ((phasedisperser.resize (Libm.mk Real.sin Real.cos Real.exp Real.log Real.sqrt)
        phasedisperser.defaultAttributes phasedisperser.initial).filterR i).co =
      ((phasedisperser.resize (Libm.mk Real.sin Real.cos Real.exp Real.log Real.sqrt)
        phasedisperser.defaultAttributes phasedisperser.initial).filterR 0).co) :=
  ⟨rfl, by norm_num [phasedisperser.defaultAttributes],
    (C9_first_rebuild_fills_active_range
      (Libm.mk Real.sin Real.cos Real.exp Real.log Real.sqrt)
      phasedisperser.defaultAttributes phasedisperser.initial rfl
      (by norm_num [phasedisperser.defaultAttributes])).2.2.1⟩

/-- C9 as stated fails: on the object as constructed, a first block with intensity 5 (and
`q = 0`, frequency 700) leaves slot 10 with its zero coefficients, while stage 0 has
`c2 = 1`. -/
theorem C9_counterexample :
    (phasedisperser.initial : phasedisperser ℝ).cur_iterations = 0 ∧
    ((phasedisperser.resize (Libm.mk Real.sin Real.cos Real.exp Real.log Real.sqrt)
      (Attributes.mk 700 5 0 0.8) phasedisperser.initial).filterL 10).co.c2 = 0 ∧
    ((phasedisperser.resize (Libm.mk Real.sin Real.cos Real.exp Real.log Real.sqrt)
      (Attributes.mk 700 5 0 0.8) phasedisperser.initial).filterL 0).co.c2 = 1 ∧
    ((phasedisperser.resize (Libm.mk Real.sin Real.cos Real.exp Real.log Real.sqrt)
      (Attributes.mk 700 5 0 0.8) phasedisperser.initial).filterL 10).co ≠
    ((phasedisperser.resize (Libm.mk Real.sin Real.cos Real.exp Real.log Real.sqrt)
      (Attributes.mk 700 5 0 0.8) phasedisperser.initial).filterL 0).co := by
  have hpos : 0 < phasedisperser.toLong (Attributes.mk (700 : ℝ) 5 0 0.8).a_intensity := by
    show 0 < phasedisperser.toLong (5 : ℝ)
    rw [toLong_five]; decide
  have hres := resize_setup (Libm.mk Real.sin Real.cos Real.exp Real.log Real.sqrt)
    (Attributes.mk 700 5 0 0.8) (phasedisperser.initial : phasedisperser ℝ) rfl hpos
  obtain ⟨hL, -, -, hq, -, hout⟩ :=
    setupFilters_banks (Libm.mk Real.sin Real.cos Real.exp Real.log Real.sqrt)
      (Attributes.mk 700 5 0 0.8) (phasedisperser.initial : phasedisperser ℝ)
  have h10 : ((phasedisperser.resize (Libm.mk Real.sin Real.cos Real.exp Real.log Real.sqrt)
      (Attributes.mk 700 5 0 0.8) phasedisperser.initial).filterL 10).co.c2 = 0 := by
    rw [hres]
    have h := (hout 10 (by decide) (by norm_num)).1
    show ((phasedisperser.setupFilters _ _ _).filterL 10).co.c2 = 0
    rw [h]
    rfl
  have hq' : (phasedisperser.setupFilters
      (Libm.mk Real.sin Real.cos Real.exp Real.log Real.sqrt)
      (Attributes.mk 700 5 0 0.8) (phasedisperser.initial : phasedisperser ℝ)).q = 0.005 := by
    rw [hq]; norm_num
  have h0 : ((phasedisperser.resize (Libm.mk Real.sin Real.cos Real.exp Real.log Real.sqrt)
      (Attributes.mk 700 5 0 0.8) phasedisperser.initial).filterL 0).co.c2 = 1 := by
    rw [hres]
    show ((phasedisperser.setupFilters _ _ _).filterL 0).co.c2 = 1
    rw [hL, hq']
    refine (construct_closed_form _ _ _ _ ?_).2.2.2.1
    have hs := Real.neg_one_le_sin (2 * 3.14159265358979323846 *
      (((phasedisperser.setupFilters
        (Libm.mk Real.sin Real.cos Real.exp Real.log Real.sqrt)
        (Attributes.mk 700 5 0 0.8) (phasedisperser.initial : phasedisperser ℝ)).freq : ℝ)) /
      44100)
    show 1 + Real.sin _ * (2 * 0.005) ≠ 0
    intro hz
    nlinarith
  refine ⟨rfl, h10, h0, ?_⟩
  intro hco
  rw [hco, h0] at h10
  exact one_ne_zero h10

/-- C10: cascade shrink.  When a block starts with intensity `n = (long) a_intensity` smaller
than the active count, the resize step only sets the active count to `n`; the coefficients
and state of every stage of both channels are what they were, and the stages with index
`≥ n` are not processed in that block: they leave the block as they entered it. -/
theorem C10_cascade_shrink (m : Libm α) (a : Attributes α) (s : phasedisperser α)
    (h : phasedisperser.toLong a.a_intensity < s.cur_iterations) :
    phasedisperser.resize m a s =
      { s with cur_iterations := phasedisperser.toLong a.a_intensity } ∧
    (phasedisperser.resize m a s).filterL = s.filterL ∧
    (phasedisperser.resize m a s).filterR = s.filterR ∧
    (∀ (input : List (α × α)) (i : Int), phasedisperser.toLong a.a_intensity ≤ i →
      (phasedisperser.operatorCall m a s input).self.filterL i = s.filterL i ∧
      (phasedisperser.operatorCall m a s input).self.filterR i = s.filterR i) := by
  have h1 : ¬ (phasedisperser.toLong a.a_intensity > s.cur_iterations) := by
    intro h'; exact absurd h (not_lt.2 (le_of_lt h'))
  have hres : phasedisperser.resize m a s =
      { s with cur_iterations := phasedisperser.toLong a.a_intensity } := by
    simp only [phasedisperser.resize, h1, h, if_true, if_false]
  refine ⟨hres, by rw [hres], by rw [hres], ?_⟩
  intro input i hi
  have hbL : (phasedisperser.beforeFilter m a s input).filterL = s.filterL := by
    show (phasedisperser.resize m a s).filterL = _
    rw [hres]
  have hbR : (phasedisperser.beforeFilter m a s input).filterR = s.filterR := by
    show (phasedisperser.resize m a s).filterR = _
    rw [hres]
  have hbk : (phasedisperser.beforeFilter m a s input).cur_iterations =
      phasedisperser.toLong a.a_intensity := resize_cur_iterations m a s
  by_cases hg : (phasedisperser.beforeFilter m a s input).samplesSinceSilence < 16384 ∧
      (phasedisperser.beforeFilter m a s input).cur_iterations ≠ 0 ∧ 0 < a.a_mix
  · have hopen := filterAudio_open a (phasedisperser.beforeFilter m a s input)
      (input.map Prod.fst) (input.map Prod.snd) hg
    have hout : ¬ (0 ≤ i ∧
        i < ((phasedisperser.beforeFilter m a s input).cur_iterations.toNat : Int)) := by
      rw [hbk]; omega
    constructor
    · show (phasedisperser.filterAudio a (phasedisperser.beforeFilter m a s input)
        (input.map Prod.fst) (input.map Prod.snd)).filterL i = _
      rw [hopen]
      simp only [serialBank, if_neg hout, hbL]
    · show (phasedisperser.filterAudio a (phasedisperser.beforeFilter m a s input)
        (input.map Prod.fst) (input.map Prod.snd)).filterR i = _
      rw [hopen]
      simp only [serialBank, if_neg hout, hbR]
  · obtain ⟨hL, hR, -⟩ := operatorCall_closed m a s input hg
    rw [hL, hR, hbL, hbR]
    exact ⟨rfl, rfl⟩

/-- C10 on the object left by a first block with intensity 10, at a block with intensity 5. -/
theorem C10_cascade_shrink_witness :
    phasedisperser.toLong (Attributes.mk (700 : ℝ) 5 0.7 0.8).a_intensity <
      (phasedisperser.operatorCall (Libm.mk Real.sin Real.cos Real.exp Real.log Real.sqrt)
        (Attributes.mk 700 10 0.7 0.8) phasedisperser.initial []).self.cur_iterations ∧
    (phasedisperser.resize (Libm.mk Real.sin Real.cos Real.exp Real.log Real.sqrt)
      (Attributes.mk 700 5 0.7 0.8)
      (phasedisperser.operatorCall (Libm.mk Real.sin Real.cos Real.exp Real.log Real.sqrt)
        (Attributes.mk 700 10 0.7 0.8) phasedisperser.initial []).self).filterL =
    (phasedisperser.operatorCall (Libm.mk Real.sin Real.cos Real.exp Real.log Real.sqrt)
      (Attributes.mk 700 10 0.7 0.8) phasedisperser.initial []).self.filterL := by
  have h : phasedisperser.toLong (Attributes.mk (700 : ℝ) 5 0.7 0.8).a_intensity <
      (phasedisperser.operatorCall (Libm.mk Real.sin Real.cos Real.exp Real.log Real.sqrt)
        (Attributes.mk 700 10 0.7 0.8) phasedisperser.initial []).self.cur_iterations := by
    rw [operatorCall_cur_iterations]
    show phasedisperser.toLong (5 : ℝ) < phasedisperser.toLong (10 : ℝ)
    rw [toLong_five, toLong_ten]; decide
  exact ⟨h, (C10_cascade_shrink _ _ _ h).2.1⟩

end ClaimsC8C9C10

/-! ## C7 -/

theorem totalSamples_replicate {α : Type} [LinearOrderedField α] [FloorRing α] (a : Attributes α) (input : List (α × α)) (k : Nat) :
    phasedisperser.totalSamples (List.replicate k (a, input)) = k * input.length := by
  induction k with
  | zero => simp [phasedisperser.totalSamples]
  | succ k ih =>
    have h : phasedisperser.totalSamples (List.replicate (k + 1) (a, input)) =
        input.length + phasedisperser.totalSamples (List.replicate k (a, input)) := by
      simp [phasedisperser.totalSamples, List.replicate_succ]
    rw [h, ih]
    ring

section SilenceLemmas

variable {α : Type} [LinearOrderedField α]

theorem copyInput_silent (c : Int) (input : List (α × α))
    (h : phasedisperser.inputSilent input) : phasedisperser.copyInput c input = c := by
  induction input generalizing c with
  | nil => rfl
  | cons f rest ih =>
    obtain ⟨x1, x2⟩ := f
    have hf := h (x1, x2) (List.mem_cons_self _ _)
    have hrest : phasedisperser.inputSilent rest :=
      fun g hg => h g (List.mem_cons_of_mem _ hg)
    have hq : ¬ (|x1| ≥ (phasedisperser.noiseFloor : α) ∨
        |x2| ≥ (phasedisperser.noiseFloor : α)) := by
      intro hor
      rcases hor with h1 | h2
      · exact absurd hf.1 (not_lt.2 h1)
      · exact absurd hf.2 (not_lt.2 h2)
    simp only [phasedisperser.copyInput, if_neg hq]
    exact ih c hrest

/-- On silent working buffers the last loop only counts up, to the cap 32768. -/
theorem mixLoop_silent_counter (mix : α) (c : Int) (t1 t2 : List α) (input : List (α × α))
    (h1 : t1.length = input.length) (h2 : t2.length = input.length)
    (hs1 : ∀ t ∈ t1, |t| < (phasedisperser.noiseFloor : α))
    (hs2 : ∀ t ∈ t2, |t| < (phasedisperser.noiseFloor : α)) :
    min (c + (input.length : Int)) 32768 ≤ (phasedisperser.mixLoop mix c t1 t2 input).1 := by
  induction input generalizing c t1 t2 with
  | nil =>
    cases t1 <;> cases t2 <;> simp [phasedisperser.mixLoop] at h1 h2 ⊢
  | cons f rest ih =>
    obtain ⟨x1, x2⟩ := f
    cases t1 with
    | nil => simp at h1
    | cons u1 r1 =>
      cases t2 with
      | nil => simp at h2
      | cons u2 r2 =>
        have e1 : r1.length = rest.length := by simpa using h1
        have e2 : r2.length = rest.length := by simpa using h2
        have hu1 := hs1 u1 (List.mem_cons_self _ _)
        have hu2 := hs2 u2 (List.mem_cons_self _ _)
        have hq : ¬ (|u1| ≥ (phasedisperser.noiseFloor : α) ∨
            |u2| ≥ (phasedisperser.noiseFloor : α)) := by
          intro hor
          rcases hor with h1 | h2
          · exact absurd hu1 (not_lt.2 h1)
          · exact absurd hu2 (not_lt.2 h2)
        have h := ih (phasedisperser.silenceStep c u1 u2) r1 r2 e1 e2
          (fun t ht => hs1 t (List.mem_cons_of_mem _ ht))
          (fun t ht => hs2 t (List.mem_cons_of_mem _ ht))
        have hstep : phasedisperser.silenceStep c u1 u2 = if c < 32768 then c + 1 else c := by
          simp only [phasedisperser.silenceStep, if_neg hq]
        show min (c + ((rest.length + 1 : Nat) : Int)) 32768 ≤
          (phasedisperser.mixLoop mix (phasedisperser.silenceStep c u1 u2) r1 r2 rest).1
        refine le_trans ?_ h
        rw [hstep]
        split <;> omega

theorem resize_samplesSinceSilence [FloorRing α] (m : Libm α) (a : Attributes α)
    (s : phasedisperser α) :
    (phasedisperser.resize m a s).samplesSinceSilence = s.samplesSinceSilence := by
  unfold phasedisperser.resize
  by_cases h1 : phasedisperser.toLong a.a_intensity > s.cur_iterations
  · by_cases h2 : s.cur_iterations > 0
    · simp only [h1, h2, if_true, forLoop, grow_loop]
    · simp only [h1, h2, if_true, if_false, phasedisperser.setupFilters, forLoop, setup_loop]
  · by_cases h2 : phasedisperser.toLong a.a_intensity < s.cur_iterations
    · simp only [h1, h2, if_true, if_false]
    · simp only [h1, h2, if_false]

/-- One block with silent input and silent working buffers moves the counter up by the
block length, to the cap. -/
theorem block_silent_counter [FloorRing α] (m : Libm α) (a : Attributes α)
    (s : phasedisperser α) (input : List (α × α))
    (hin : phasedisperser.inputSilent input)
    (hw : phasedisperser.workingSilent (phasedisperser.operatorCall m a s input)) :
    min (s.samplesSinceSilence + (input.length : Int)) 32768 ≤
      (phasedisperser.operatorCall m a s input).self.samplesSinceSilence := by
  obtain ⟨hl1, hl2, -, -⟩ := operatorCall_out m a s input
  have hb : (phasedisperser.beforeFilter m a s input).samplesSinceSilence =
      s.samplesSinceSilence := by
    show phasedisperser.copyInput (phasedisperser.resize m a s).samplesSinceSilence input = _
    rw [copyInput_silent _ _ hin, resize_samplesSinceSilence]
  have h := mixLoop_silent_counter a.a_mix
    (phasedisperser.beforeFilter m a s input).samplesSinceSilence
    (phasedisperser.operatorCall m a s input).temp1
    (phasedisperser.operatorCall m a s input).temp2 input hl1 hl2 hw.1 hw.2
  have hc : (phasedisperser.operatorCall m a s input).self.samplesSinceSilence =
      (phasedisperser.mixLoop a.a_mix
        (phasedisperser.beforeFilter m a s input).samplesSinceSilence
        (phasedisperser.operatorCall m a s input).temp1
        (phasedisperser.operatorCall m a s input).temp2 input).1 := rfl
  rw [hc]
  rw [hb] at h ⊢
  exact h

/-- A run of silent blocks moves the counter up by the number of samples, to the cap. -/
theorem run_silent_counter [FloorRing α] (m : Libm α) (s : phasedisperser α)
    (blocks : List (Attributes α × List (α × α)))
    (hrun : phasedisperser.SilentRun m s blocks) :
    min (s.samplesSinceSilence + (phasedisperser.totalSamples blocks : Int)) 32768 ≤
      (phasedisperser.runBlocks m s blocks).samplesSinceSilence := by
  induction blocks generalizing s with
  | nil => simp [phasedisperser.totalSamples, phasedisperser.runBlocks]
  | cons b rest ih =>
    obtain ⟨hin, hw, hrest⟩ := hrun
    have h1 := block_silent_counter m b.1 s b.2 hin hw
    have h2 := ih (phasedisperser.operatorCall m b.1 s b.2).self hrest
    have ht : (phasedisperser.totalSamples (b :: rest) : Int) =
        (b.2.length : Int) + (phasedisperser.totalSamples rest : Int) := by
      simp [phasedisperser.totalSamples]
    show min (s.samplesSinceSilence + (phasedisperser.totalSamples (b :: rest) : Int)) 32768 ≤
      (phasedisperser.runBlocks m (phasedisperser.operatorCall m b.1 s b.2).self
        rest).samplesSinceSilence
    rw [ht]
    omega

/-- The resize step leaves the state variables of every stage alone when stages are active. -/
theorem resize_states [FloorRing α] (m : Libm α) (a : Attributes α) (s : phasedisperser α)
    (hk : 0 < s.cur_iterations) (i : Int) :
    ((phasedisperser.resize m a s).filterL i).xm1 = (s.filterL i).xm1 ∧
    ((phasedisperser.resize m a s).filterL i).xm2 = (s.filterL i).xm2 ∧
    ((phasedisperser.resize m a s).filterL i).ym1 = (s.filterL i).ym1 ∧
    ((phasedisperser.resize m a s).filterL i).ym2 = (s.filterL i).ym2 ∧
    ((phasedisperser.resize m a s).filterR i).xm1 = (s.filterR i).xm1 ∧
    ((phasedisperser.resize m a s).filterR i).xm2 = (s.filterR i).xm2 ∧
    ((phasedisperser.resize m a s).filterR i).ym1 = (s.filterR i).ym1 ∧
    ((phasedisperser.resize m a s).filterR i).ym2 = (s.filterR i).ym2 := by
  by_cases h1 : s.cur_iterations < phasedisperser.toLong a.a_intensity
  · rw [resize_grow m a s hk h1]
    by_cases hin : s.cur_iterations ≤ i ∧ i < phasedisperser.toLong a.a_intensity
    · simp only [if_pos hin]
      exact ⟨rfl, rfl, rfl, rfl, rfl, rfl, rfl, rfl⟩
    · simp only [if_neg hin, and_self]
  · have h1' : ¬ (phasedisperser.toLong a.a_intensity > s.cur_iterations) := h1
    unfold phasedisperser.resize
    by_cases h2 : phasedisperser.toLong a.a_intensity < s.cur_iterations
    · simp only [h1', h2, if_true, if_false, and_self]
    · simp only [h1', h2, if_false, and_self]

theorem inputSilent_zeros (n : Nat) :
    phasedisperser.inputSilent (List.replicate n ((0 : α), (0 : α))) := by
  intro f hf
  have hf0 : f = ((0 : α), (0 : α)) := List.eq_of_mem_replicate hf
  have hpos : (0 : α) < phasedisperser.noiseFloor := by
    unfold phasedisperser.noiseFloor; norm_num
  rw [hf0]
  simpa using hpos

theorem ringingStage_processBlock (n : Nat) :
    (phasedisperser.ringingStage : AllPassFilter α).processBlock (List.replicate n 0) =
      (phasedisperser.ringingStage, List.replicate n 1) := by
  induction n with
  | zero => rfl
  | succ n ih =>
    have hstep : (phasedisperser.ringingStage : AllPassFilter α).processSample 0 =
        (phasedisperser.ringingStage, 1) := by
      simp [AllPassFilter.processSample, phasedisperser.ringingStage]
      norm_num
    rw [List.replicate_succ, processBlock_cons, hstep, ih]
    rfl

theorem default_processBlock (n : Nat) :
    (AllPassFilter.default : AllPassFilter α).processBlock (List.replicate n 0) =
      (AllPassFilter.default, List.replicate n 0) := by
  induction n with
  | zero => rfl
  | succ n ih =>
    have hstep : (AllPassFilter.default : AllPassFilter α).processSample 0 =
        (AllPassFilter.default, 0) := by
      simp [AllPassFilter.processSample, AllPassFilter.default]
    rw [List.replicate_succ, processBlock_cons, hstep, ih]

theorem mixLoop_ringing (mix : α) (n : Nat) :
    phasedisperser.mixLoop mix 0 (List.replicate n 1) (List.replicate n 0)
        (List.replicate n ((0 : α), (0 : α))) =
      (0, List.replicate n (1 * mix + 0 * (1 - mix)),
        List.replicate n (0 * mix + 0 * (1 - mix))) := by
  induction n with
  | zero => rfl
  | succ n ih =>
    have hloud : |(1 : α)| ≥ phasedisperser.noiseFloor ∨
        |(0 : α)| ≥ phasedisperser.noiseFloor := by
      left
      unfold phasedisperser.noiseFloor
      rw [abs_one]; norm_num
    have hstep : phasedisperser.silenceStep 0 (1 : α) 0 = 0 := by
      simp only [phasedisperser.silenceStep, if_pos hloud]
    simp only [List.replicate_succ, phasedisperser.mixLoop, hstep, ih]

/-- A block of zeros leaves `ringingObject` as it is and puts out `1*mix + 0*(1-mix)` on the
left channel. -/
theorem ringing_block [FloorRing α] (m : Libm α) (a : Attributes α)
    (ha : phasedisperser.toLong a.a_intensity = 1) (hmix : 0 < a.a_mix) (n : Nat) :
    (phasedisperser.operatorCall m a phasedisperser.ringingObject
      (List.replicate n ((0 : α), (0 : α)))).self = phasedisperser.ringingObject ∧
    (phasedisperser.operatorCall m a phasedisperser.ringingObject
      (List.replicate n ((0 : α), (0 : α)))).out1 =
      List.replicate n (1 * a.a_mix + 0 * (1 - a.a_mix)) := by
  have hres : phasedisperser.resize m a phasedisperser.ringingObject =
      phasedisperser.ringingObject := by
    have h1 : ¬ ((1 : Int) > (phasedisperser.ringingObject : phasedisperser α).cur_iterations) := by
      show ¬ ((1 : Int) > 1)
      decide
    have h2 : ¬ ((1 : Int) < (phasedisperser.ringingObject : phasedisperser α).cur_iterations) := by
      show ¬ ((1 : Int) < 1)
      decide
    simp only [phasedisperser.resize, ha, h1, h2, if_false]
  have hbf : phasedisperser.beforeFilter m a phasedisperser.ringingObject
      (List.replicate n ((0 : α), (0 : α))) = phasedisperser.ringingObject := by
    simp only [phasedisperser.beforeFilter, hres, copyInput_silent _ _ (inputSilent_zeros n)]
  have hopen := filterAudio_open a (phasedisperser.ringingObject : phasedisperser α)
    ((List.replicate n ((0 : α), (0 : α))).map Prod.fst)
    ((List.replicate n ((0 : α), (0 : α))).map Prod.snd)
    ⟨by show (0 : Int) < 16384; decide, by show (1 : Int) ≠ 0; decide, hmix⟩
  have hbankL : serialBank (phasedisperser.ringingObject : phasedisperser α).filterL
      (List.replicate n 0) 1 = (phasedisperser.ringingObject : phasedisperser α).filterL := by
    funext j
    by_cases hj : j = 0
    · subst hj
      have hin : (0 : Int) ≤ 0 ∧ (0 : Int) < ((1 : Nat) : Int) := by decide
      simp only [serialBank, if_pos hin, Int.toNat_zero, serialSignal]
      show ((phasedisperser.ringingStage : AllPassFilter α).processBlock
        (List.replicate n 0)).1 = phasedisperser.ringingStage
      rw [ringingStage_processBlock]
    · have hout : ¬ ((0 : Int) ≤ j ∧ j < ((1 : Nat) : Int)) := by omega
      simp only [serialBank, if_neg hout]
  have hbankR : serialBank (phasedisperser.ringingObject : phasedisperser α).filterR
      (List.replicate n 0) 1 = (phasedisperser.ringingObject : phasedisperser α).filterR := by
    funext j
    by_cases hj : j = 0
    · subst hj
      have hin : (0 : Int) ≤ 0 ∧ (0 : Int) < ((1 : Nat) : Int) := by decide
      simp only [serialBank, if_pos hin, Int.toNat_zero, serialSignal]
      show ((AllPassFilter.default : AllPassFilter α).processBlock
        (List.replicate n 0)).1 = AllPassFilter.default
      rw [default_processBlock]
    · have hout : ¬ ((0 : Int) ≤ j ∧ j < ((1 : Nat) : Int)) := by omega
      simp only [serialBank, if_neg hout]
  have hsigL : serialSignal (phasedisperser.ringingObject : phasedisperser α).filterL
      (List.replicate n 0) 1 = List.replicate n 1 := by
    show ((phasedisperser.ringingStage : AllPassFilter α).processBlock
      (List.replicate n 0)).2 = _
    rw [ringingStage_processBlock]
  have hsigR : serialSignal (phasedisperser.ringingObject : phasedisperser α).filterR
      (List.replicate n 0) 1 = List.replicate n 0 := by
    show ((AllPassFilter.default : AllPassFilter α).processBlock
      (List.replicate n 0)).2 = _
    rw [default_processBlock]
  have hk : (phasedisperser.ringingObject : phasedisperser α).cur_iterations.toNat = 1 := rfl
  rw [List.map_replicate, List.map_replicate, hk, hbankL, hbankR, hsigL, hsigR] at hopen
  have hsss : (phasedisperser.ringingObject : phasedisperser α).samplesSinceSilence = 0 := rfl
  simp only [phasedisperser.operatorCall, hbf, List.map_replicate, hopen, hsss,
    mixLoop_ringing]
  exact ⟨rfl, trivial⟩

theorem ringing_run [FloorRing α] (m : Libm α) (a : Attributes α)
    (ha : phasedisperser.toLong a.a_intensity = 1) (hmix : 0 < a.a_mix) (n k : Nat) :
    phasedisperser.runBlocks m phasedisperser.ringingObject
      (List.replicate k (a, List.replicate n ((0 : α), (0 : α)))) =
      phasedisperser.ringingObject := by
  induction k with
  | zero => rfl
  | succ k ih =>
    rw [List.replicate_succ]
    show phasedisperser.runBlocks m
      (phasedisperser.operatorCall m a phasedisperser.ringingObject
        (List.replicate n ((0 : α), (0 : α)))).self _ = _
    rw [(ringing_block m a ha hmix n).1, ih]

/-- With `mix = 0` every run of zero blocks is a silent run. -/
theorem silentRun_zeros_dry [FloorRing α] (m : Libm α) (a : Attributes α)
    (hmix : a.a_mix = 0) (n k : Nat) (s : phasedisperser α) :
    phasedisperser.SilentRun m s
      (List.replicate k (a, List.replicate n ((0 : α), (0 : α)))) := by
  induction k generalizing s with
  | zero => trivial
  | succ k ih =>
    rw [List.replicate_succ]
    refine ⟨inputSilent_zeros n, ?_, ih _⟩
    have hgate : ¬ ((phasedisperser.beforeFilter m a s
        (List.replicate n ((0 : α), (0 : α)))).samplesSinceSilence < 16384 ∧
        (phasedisperser.beforeFilter m a s
          (List.replicate n ((0 : α), (0 : α)))).cur_iterations ≠ 0 ∧ 0 < a.a_mix) := by
      rw [hmix]; simp
    obtain ⟨-, -, hT1, hT2, -⟩ := operatorCall_closed m a s _ hgate
    have hz := @inputSilent_zeros α _ n
    constructor
    · intro t ht
      rw [show (phasedisperser.operatorCall m (a, List.replicate n ((0 : α), (0 : α))).1 s
        (a, List.replicate n ((0 : α), (0 : α))).2).temp1 = _ from hT1] at ht
      obtain ⟨f, hf, rfl⟩ := List.mem_map.1 ht
      exact (hz f hf).1
    · intro t ht
      rw [show (phasedisperser.operatorCall m (a, List.replicate n ((0 : α), (0 : α))).1 s
        (a, List.replicate n ((0 : α), (0 : α))).2).temp2 = _ from hT2] at ht
      obtain ⟨f, hf, rfl⟩ := List.mem_map.1 ht
      exact (hz f hf).2

end SilenceLemmas

section ClaimC7

variable {α : Type} [LinearOrderedField α] [FloorRing α]

/-- C7 (amended): silence auto-bypass.  From any object whose counter is not negative, after
consecutive blocks totalling more than 16384 samples in which every input sample and every
sample of the working buffers (the signal after the filter step) of both channels is below
the noise floor, the following block with input below the noise floor skips the filter
bank: the filter step changes no stage, the state variables of every stage are those the
block started with (when stages are active), and `out[i] = in[i]*mix + in[i]*(1-mix)`. -/
theorem C7_silence_bypass (m : Libm α) (s : phasedisperser α)
    (blocks : List (Attributes α × List (α × α))) (a : Attributes α) (input : List (α × α))
    (h0 : 0 ≤ s.samplesSinceSilence)
    (hrun : phasedisperser.SilentRun m s blocks)
    (htotal : 16384 < phasedisperser.totalSamples blocks)
    (hin : phasedisperser.inputSilent input) :
    (phasedisperser.operatorCall m a (phasedisperser.runBlocks m s blocks) input).self.filterL =
      (phasedisperser.resize m a (phasedisperser.runBlocks m s blocks)).filterL ∧
    (phasedisperser.operatorCall m a (phasedisperser.runBlocks m s blocks) input).self.filterR =
      (phasedisperser.resize m a (phasedisperser.runBlocks m s blocks)).filterR ∧
    (0 < (phasedisperser.runBlocks m s blocks).cur_iterations → ∀ i : Int,
      ((phasedisperser.operatorCall m a (phasedisperser.runBlocks m s blocks)
          input).self.filterL i).xm1 = ((phasedisperser.runBlocks m s blocks).filterL i).xm1 ∧
      ((phasedisperser.operatorCall m a (phasedisperser.runBlocks m s blocks)
          input).self.filterL i).xm2 = ((phasedisperser.runBlocks m s blocks).filterL i).xm2 ∧
      ((phasedisperser.operatorCall m a (phasedisperser.runBlocks m s blocks)
          input).self.filterL i).ym1 = ((phasedisperser.runBlocks m s blocks).filterL i).ym1 ∧
      ((phasedisperser.operatorCall m a (phasedisperser.runBlocks m s blocks)
          input).self.filterL i).ym2 = ((phasedisperser.runBlocks m s blocks).filterL i).ym2 ∧
      ((phasedisperser.operatorCall m a (phasedisperser.runBlocks m s blocks)
          input).self.filterR i).xm1 = ((phasedisperser.runBlocks m s blocks).filterR i).xm1 ∧
      ((phasedisperser.operatorCall m a (phasedisperser.runBlocks m s blocks)
          input).self.filterR i).xm2 = ((phasedisperser.runBlocks m s blocks).filterR i).xm2 ∧
      ((phasedisperser.operatorCall m a (phasedisperser.runBlocks m s blocks)
          input).self.filterR i).ym1 = ((phasedisperser.runBlocks m s blocks).filterR i).ym1 ∧
      ((phasedisperser.operatorCall m a (phasedisperser.runBlocks m s blocks)
          input).self.filterR i).ym2 = ((phasedisperser.runBlocks m s blocks).filterR i).ym2) ∧
    (phasedisperser.operatorCall m a (phasedisperser.runBlocks m s blocks) input).out1 =
      (input.map Prod.fst).map (fun x => x * a.a_mix + x * (1 - a.a_mix)) ∧
    (phasedisperser.operatorCall m a (phasedisperser.runBlocks m s blocks) input).out2 =
      (input.map Prod.snd).map (fun x => x * a.a_mix + x * (1 - a.a_mix)) := by
  have hcount := run_silent_counter m s blocks hrun
  have hbig : 16384 ≤ (phasedisperser.runBlocks m s blocks).samplesSinceSilence := by
    have ht : (16384 : Int) < (phasedisperser.totalSamples blocks : Int) := by
      exact_mod_cast htotal
    omega
  have hb : (phasedisperser.beforeFilter m a (phasedisperser.runBlocks m s blocks)
      input).samplesSinceSilence = (phasedisperser.runBlocks m s blocks).samplesSinceSilence := by
    show phasedisperser.copyInput
      (phasedisperser.resize m a (phasedisperser.runBlocks m s blocks)).samplesSinceSilence
      input = _
    rw [copyInput_silent _ _ hin, resize_samplesSinceSilence]
  have hgate : ¬ ((phasedisperser.beforeFilter m a (phasedisperser.runBlocks m s blocks)
        input).samplesSinceSilence < 16384 ∧
      (phasedisperser.beforeFilter m a (phasedisperser.runBlocks m s blocks)
        input).cur_iterations ≠ 0 ∧ 0 < a.a_mix) := by
    rw [hb]
    intro h
    omega
  obtain ⟨hL, hR, -, -, ho1, ho2⟩ :=
    operatorCall_closed m a (phasedisperser.runBlocks m s blocks) input hgate
  have hL' : (phasedisperser.operatorCall m a (phasedisperser.runBlocks m s blocks)
      input).self.filterL =
      (phasedisperser.resize m a (phasedisperser.runBlocks m s blocks)).filterL := hL
  have hR' : (phasedisperser.operatorCall m a (phasedisperser.runBlocks m s blocks)
      input).self.filterR =
      (phasedisperser.resize m a (phasedisperser.runBlocks m s blocks)).filterR := hR
  refine ⟨hL', hR', ?_, ho1, ho2⟩
  intro hk i
  rw [hL', hR']
  exact resize_states m a (phasedisperser.runBlocks m s blocks) hk i

/-- C7 (amended) on the object as constructed, after five blocks of 4096 zero frames with
`mix = 0`, at a block of one zero frame. -/
theorem C7_silence_bypass_witness :
    0 ≤ (phasedisperser.initial : phasedisperser ℝ).samplesSinceSilence ∧
    phasedisperser.SilentRun (Libm.mk Real.sin Real.cos Real.exp Real.log Real.sqrt)
      (phasedisperser.initial : phasedisperser ℝ)
      (List.replicate 5 (Attributes.mk 700 25 0.7 0, List.replicate 4096 ((0 : ℝ), (0 : ℝ)))) ∧
    16384 < phasedisperser.totalSamples
      (List.replicate 5 (Attributes.mk 700 25 0.7 0, List.replicate 4096 ((0 : ℝ), (0 : ℝ)))) ∧
    phasedisperser.inputSilent [((0 : ℝ), (0 : ℝ))] ∧
    (phasedisperser.operatorCall (Libm.mk Real.sin Real.cos Real.exp Real.log Real.sqrt)
      (Attributes.mk 700 25 0.7 0.8)
      (phasedisperser.runBlocks (Libm.mk Real.sin Real.cos Real.exp Real.log Real.sqrt)
        phasedisperser.initial
        (List.replicate 5
          (Attributes.mk 700 25 0.7 0, List.replicate 4096 ((0 : ℝ), (0 : ℝ)))))
      [((0 : ℝ), (0 : ℝ))]).out1 =
      ([((0 : ℝ), (0 : ℝ))].map Prod.fst).map (fun x => x * 0.8 + x * (1 - 0.8)) := by
  have h0 : 0 ≤ (phasedisperser.initial : phasedisperser ℝ).samplesSinceSilence := by
    show (0 : Int) ≤ 1
    decide
  have hrun := silentRun_zeros_dry (Libm.mk Real.sin Real.cos Real.exp Real.log Real.sqrt)
    (Attributes.mk (700 : ℝ) 25 0.7 0) rfl 4096 5 phasedisperser.initial
  have htotal : 16384 < phasedisperser.totalSamples
      (List.replicate 5 (Attributes.mk 700 25 0.7 0,
        List.replicate 4096 ((0 : ℝ), (0 : ℝ)))) := by
    rw [totalSamples_replicate, List.length_replicate]
    decide
  have hin : phasedisperser.inputSilent [((0 : ℝ), (0 : ℝ))] := inputSilent_zeros 1
  exact ⟨h0, hrun, htotal, hin,
    (C7_silence_bypass _ _ _ (Attributes.mk 700 25 0.7 0.8) _ h0 hrun htotal hin).2.2.2.1⟩

/-- C7 as stated fails: `ringingObject` (counter 0, one active stage) is fed five blocks of
4096 zero frames, 20480 samples below the noise floor, with intensity 1 and mix 0.8; the
left stage keeps putting out 1, so the counter stays 0, and in the following block of one
zero frame the bank is run: the left output is `0.8`, not `0*0.8 + 0*(1-0.8)`. -/
theorem C7_counterexample :
    0 ≤ (phasedisperser.ringingObject : phasedisperser ℝ).samplesSinceSilence ∧
    (∀ b ∈ List.replicate 5
        (Attributes.mk (700 : ℝ) 1 0.7 0.8, List.replicate 4096 ((0 : ℝ), (0 : ℝ))),
      phasedisperser.inputSilent b.2) ∧
    16384 < phasedisperser.totalSamples
      (List.replicate 5 (Attributes.mk 700 1 0.7 0.8, List.replicate 4096 ((0 : ℝ), (0 : ℝ)))) ∧
    phasedisperser.inputSilent [((0 : ℝ), (0 : ℝ))] ∧
    (phasedisperser.operatorCall (Libm.mk Real.sin Real.cos Real.exp Real.log Real.sqrt)
      (Attributes.mk 700 1 0.7 0.8)
      (phasedisperser.runBlocks (Libm.mk Real.sin Real.cos Real.exp Real.log Real.sqrt)
        phasedisperser.ringingObject
        (List.replicate 5
          (Attributes.mk 700 1 0.7 0.8, List.replicate 4096 ((0 : ℝ), (0 : ℝ)))))
      [((0 : ℝ), (0 : ℝ))]).out1 = [0.8] ∧
    (phasedisperser.operatorCall (Libm.mk Real.sin Real.cos Real.exp Real.log Real.sqrt)
      (Attributes.mk 700 1 0.7 0.8)
      (phasedisperser.runBlocks (Libm.mk Real.sin Real.cos Real.exp Real.log Real.sqrt)
        phasedisperser.ringingObject
        (List.replicate 5
          (Attributes.mk 700 1 0.7 0.8, List.replicate 4096 ((0 : ℝ), (0 : ℝ)))))
      [((0 : ℝ), (0 : ℝ))]).out1 ≠
      ([((0 : ℝ), (0 : ℝ))].map Prod.fst).map (fun x => x * 0.8 + x * (1 - 0.8)) := by
  have ha : phasedisperser.toLong (Attributes.mk (700 : ℝ) 1 0.7 0.8).a_intensity = 1 := by
    show phasedisperser.toLong (1 : ℝ) = 1
    simpa using @toLong_natCast ℝ _ _ 1
  have hmix : (0 : ℝ) < (Attributes.mk (700 : ℝ) 1 0.7 0.8).a_mix := by
    show (0 : ℝ) < 0.8
    norm_num
  have hrun := ringing_run (Libm.mk Real.sin Real.cos Real.exp Real.log Real.sqrt)
    (Attributes.mk (700 : ℝ) 1 0.7 0.8) ha hmix 4096 5
  have hblock := (ringing_block (Libm.mk Real.sin Real.cos Real.exp Real.log Real.sqrt)
    (Attributes.mk (700 : ℝ) 1 0.7 0.8) ha hmix 1).2
  have hout : (phasedisperser.operatorCall
      (Libm.mk Real.sin Real.cos Real.exp Real.log Real.sqrt)
      (Attributes.mk 700 1 0.7 0.8)
      (phasedisperser.runBlocks (Libm.mk Real.sin Real.cos Real.exp Real.log Real.sqrt)
        phasedisperser.ringingObject
        (List.replicate 5
          (Attributes.mk 700 1 0.7 0.8, List.replicate 4096 ((0 : ℝ), (0 : ℝ)))))
      [((0 : ℝ), (0 : ℝ))]).out1 = [0.8] := by
    rw [hrun]
    have e : [((0 : ℝ), (0 : ℝ))] = List.replicate 1 ((0 : ℝ), (0 : ℝ)) := rfl
    rw [e, hblock]
    show [(1 : ℝ) * 0.8 + 0 * (1 - 0.8)] = [0.8]
    norm_num
  refine ⟨le_refl _, ?_, ?_, inputSilent_zeros 1, hout, ?_⟩
  · intro b hb
    rw [List.eq_of_mem_replicate hb]
    exact inputSilent_zeros 4096
  · rw [totalSamples_replicate, List.length_replicate]
    decide
  · rw [hout]
    norm_num

end ClaimC7

/-! ## C11, C18 -/

/-- C18: `processBlock` does not depend on how the signal is cut into blocks.  Running it on
`xs ++ ys` from a stage `s` gives the same output sequence and the same final stage as
running it on `xs` from `s`, then on `ys` from the stage that leaves, and concatenating the
two outputs. -/
theorem C18_processBlock_append {α : Type} [Add α] [Sub α] [Mul α] (s : AllPassFilter α)
    (xs ys : List α) :
    (s.processBlock (xs ++ ys)).2 =
      (s.processBlock xs).2 ++ ((s.processBlock xs).1.processBlock ys).2 ∧
    (s.processBlock (xs ++ ys)).1 = ((s.processBlock xs).1.processBlock ys).1 := by
  induction xs generalizing s with
  | nil => exact ⟨rfl, rfl⟩
  | cons x xs ih =>
    have h := ih (s.processSample x).1
    rw [List.cons_append, processBlock_cons, processBlock_cons]
    exact ⟨by rw [h.1]; rfl, h.2⟩

theorem reset_eq_of_co_eq {α : Type} [Zero α] (f g : AllPassFilter α) (h : f.co = g.co) :
    f.reset = g.reset := by
  cases f
  cases g
  simp only [AllPassFilter.reset]
  simp only at h
  rw [h]

/-- C11: reset erases history and nothing else.  Two stages with equal coefficients and any
states give, after `reset()`, the same output and the same final stage on every input
block, namely those of the zero-state stage with those coefficients; the first output
sample is `c0*x[0]`; `reset()` leaves the coefficients unchanged and is idempotent. -/
theorem C11_reset_erases_history {α : Type} [Ring α] (f g : AllPassFilter α)
    (h : f.co = g.co) (x : List α) :
    f.reset.processBlock x = g.reset.processBlock x ∧
    f.reset.processBlock x =
      (AllPassFilter.mk f.co 0 0 0 0).processBlock x ∧
    (∀ (x0 : α) (rest : List α),
      (f.reset.processBlock (x0 :: rest)).2.head? = some (f.co.c0 * x0)) ∧
    f.reset.co = f.co ∧
    f.reset.reset = f.reset := by
  refine ⟨by rw [reset_eq_of_co_eq f g h], rfl, ?_, rfl, rfl⟩
  intro x0 rest
  rw [processBlock_cons]
  simp [AllPassFilter.processSample, AllPassFilter.reset]

/-- C11 at two stages with coefficients `(1, 2, 3, 4, 5)` and different states, on the
block `[1, 2, 3]` over the rationals. -/
theorem C11_reset_erases_history_witness :
    (AllPassFilter.mk (AllPassCoefficients.mk (1 : ℚ) 2 3 4 5) 1 1 1 1).co =
      (AllPassFilter.mk (AllPassCoefficients.mk (1 : ℚ) 2 3 4 5) 7 8 9 10).co ∧
    (AllPassFilter.mk (AllPassCoefficients.mk (1 : ℚ) 2 3 4 5) 1 1 1 1).reset.processBlock
        [1, 2, 3] =
      (AllPassFilter.mk (AllPassCoefficients.mk (1 : ℚ) 2 3 4 5) 7 8 9 10).reset.processBlock
        [1, 2, 3] :=
  ⟨rfl, (C11_reset_erases_history _ _ rfl [1, 2, 3]).1⟩

/-! ## C12, C15 -/

section CounterLemmas

variable {α : Type} [LinearOrderedField α]

theorem silenceStep_range (c : Int) (t1 t2 : α) (h0 : 0 ≤ c) (h1 : c ≤ 32768) :
    0 ≤ phasedisperser.silenceStep c t1 t2 ∧ phasedisperser.silenceStep c t1 t2 ≤ 32768 := by
  unfold phasedisperser.silenceStep
  split
  · exact ⟨le_refl _, by decide⟩
  · split <;> constructor <;> omega

theorem copyInput_range (c : Int) (input : List (α × α)) (h0 : 0 ≤ c) (h1 : c ≤ 32768) :
    0 ≤ phasedisperser.copyInput c input ∧ phasedisperser.copyInput c input ≤ 32768 := by
  induction input generalizing c with
  | nil => exact ⟨h0, h1⟩
  | cons f rest ih =>
    obtain ⟨x1, x2⟩ := f
    simp only [phasedisperser.copyInput]
    split
    · exact ih 0 (le_refl _) (by decide)
    · exact ih c h0 h1

theorem mixLoop_range (mix : α) (c : Int) (t1 t2 : List α) (input : List (α × α))
    (h0 : 0 ≤ c) (h1 : c ≤ 32768) :
    0 ≤ (phasedisperser.mixLoop mix c t1 t2 input).1 ∧
    (phasedisperser.mixLoop mix c t1 t2 input).1 ≤ 32768 := by
  induction input generalizing c t1 t2 with
  | nil => cases t1 <;> cases t2 <;> exact ⟨h0, h1⟩
  | cons f rest ih =>
    obtain ⟨x1, x2⟩ := f
    cases t1 with
    | nil => exact ⟨h0, h1⟩
    | cons u1 r1 =>
      cases t2 with
      | nil => exact ⟨h0, h1⟩
      | cons u2 r2 =>
        have hs := silenceStep_range c u1 u2 h0 h1
        exact ih (phasedisperser.silenceStep c u1 u2) r1 r2 hs.1 hs.2

theorem operatorCall_counter_range [FloorRing α] (m : Libm α) (a : Attributes α)
    (s : phasedisperser α) (input : List (α × α))
    (h0 : 0 ≤ s.samplesSinceSilence) (h1 : s.samplesSinceSilence ≤ 32768) :
    0 ≤ (phasedisperser.operatorCall m a s input).self.samplesSinceSilence ∧
    (phasedisperser.operatorCall m a s input).self.samplesSinceSilence ≤ 32768 := by
  have hr := resize_samplesSinceSilence m a s
  have hb := copyInput_range (phasedisperser.resize m a s).samplesSinceSilence input
    (by rw [hr]; exact h0) (by rw [hr]; exact h1)
  exact mixLoop_range a.a_mix _ _ _ input hb.1 hb.2

theorem runBlocks_counter_range [FloorRing α] (m : Libm α) (s : phasedisperser α)
    (blocks : List (Attributes α × List (α × α)))
    (h0 : 0 ≤ s.samplesSinceSilence) (h1 : s.samplesSinceSilence ≤ 32768) :
    0 ≤ (phasedisperser.runBlocks m s blocks).samplesSinceSilence ∧
    (phasedisperser.runBlocks m s blocks).samplesSinceSilence ≤ 32768 := by
  induction blocks generalizing s with
  | nil => exact ⟨h0, h1⟩
  | cons b rest ih =>
    have h := operatorCall_counter_range m b.1 s b.2 h0 h1
    exact ih (phasedisperser.operatorCall m b.1 s b.2).self h.1 h.2

theorem copyInput_zero (input : List (α × α)) : phasedisperser.copyInput 0 input = 0 := by
  induction input with
  | nil => rfl
  | cons f rest ih =>
    obtain ⟨x1, x2⟩ := f
    simp only [phasedisperser.copyInput, ite_self, ih]

theorem copyInput_loud (c : Int) (input : List (α × α))
    (h : ∃ f ∈ input, |f.1| ≥ (phasedisperser.noiseFloor : α) ∨
      |f.2| ≥ (phasedisperser.noiseFloor : α)) :
    phasedisperser.copyInput c input = 0 := by
  induction input generalizing c with
  | nil =>
    obtain ⟨f, hf, -⟩ := h
    simp at hf
  | cons g rest ih =>
    obtain ⟨x1, x2⟩ := g
    obtain ⟨f, hf, hloud⟩ := h
    simp only [phasedisperser.copyInput]
    by_cases hg : |x1| ≥ (phasedisperser.noiseFloor : α) ∨
        |x2| ≥ (phasedisperser.noiseFloor : α)
    · rw [if_pos hg]
      exact copyInput_zero rest
    · rw [if_neg hg]
      rcases List.mem_cons.1 hf with heq | hmem
      · subst heq
        exact absurd hloud hg
      · exact ih c ⟨f, hmem, hloud⟩

/-- On working buffers that are silent at every index the last loop leaves
`min(32768, c + n)`. -/
theorem mixLoop_counter_all_silent (mix : α) (c : Int) (t1 t2 : List α)
    (input : List (α × α)) (h1 : t1.length = input.length) (h2 : t2.length = input.length)
    (hc : c ≤ 32768)
    (hs : ∀ i : Nat, i < input.length →
      |t1.getD i 0| < (phasedisperser.noiseFloor : α) ∧
      |t2.getD i 0| < (phasedisperser.noiseFloor : α)) :
    (phasedisperser.mixLoop mix c t1 t2 input).1 = min 32768 (c + (input.length : Int)) := by
  induction input generalizing c t1 t2 with
  | nil =>
    cases t1 <;> cases t2 <;> simp [phasedisperser.mixLoop] at h1 h2 ⊢
    omega
  | cons f rest ih =>
    obtain ⟨x1, x2⟩ := f
    cases t1 with
    | nil => simp at h1
    | cons u1 r1 =>
      cases t2 with
      | nil => simp at h2
      | cons u2 r2 =>
        have e1 : r1.length = rest.length := by simpa using h1
        have e2 : r2.length = rest.length := by simpa using h2
        have hhead := hs 0 (by simp)
        have hq : ¬ (|u1| ≥ (phasedisperser.noiseFloor : α) ∨
            |u2| ≥ (phasedisperser.noiseFloor : α)) := by
          intro hor
          rcases hor with h | h
          · exact absurd hhead.1 (not_lt.2 h)
          · exact absurd hhead.2 (not_lt.2 h)
        have hstep : phasedisperser.silenceStep c u1 u2 = if c < 32768 then c + 1 else c := by
          simp only [phasedisperser.silenceStep, if_neg hq]
        have hc' : phasedisperser.silenceStep c u1 u2 ≤ 32768 := by
          rw [hstep]; split <;> omega
        have htail : ∀ i : Nat, i < rest.length →
            |r1.getD i 0| < (phasedisperser.noiseFloor : α) ∧
            |r2.getD i 0| < (phasedisperser.noiseFloor : α) := by
          intro i hi
          exact hs (i + 1) (by simpa using hi)
        have h := ih (phasedisperser.silenceStep c u1 u2) r1 r2 e1 e2 hc' htail
        show (phasedisperser.mixLoop mix (phasedisperser.silenceStep c u1 u2) r1 r2 rest).1 =
          min 32768 (c + ((rest.length + 1 : Nat) : Int))
        rw [h, hstep]
        split <;> omega

/-- When index `j` is the last one at which the working buffers are not silent, the last
loop leaves the number of samples after `j`. -/
theorem mixLoop_counter_last_loud (mix : α) (c : Int) (t1 t2 : List α)
    (input : List (α × α)) (h1 : t1.length = input.length) (h2 : t2.length = input.length)
    (hn : input.length ≤ 32768) (j : Nat) (hj : j < input.length)
    (hloud : |t1.getD j 0| ≥ (phasedisperser.noiseFloor : α) ∨
      |t2.getD j 0| ≥ (phasedisperser.noiseFloor : α))
    (hs : ∀ i : Nat, j < i → i < input.length →
      |t1.getD i 0| < (phasedisperser.noiseFloor : α) ∧
      |t2.getD i 0| < (phasedisperser.noiseFloor : α)) :
    (phasedisperser.mixLoop mix c t1 t2 input).1 = (input.length : Int) - 1 - (j : Int) := by
  induction input generalizing c t1 t2 j with
  | nil => simp at hj
  | cons f rest ih =>
    obtain ⟨x1, x2⟩ := f
    cases t1 with
    | nil => simp at h1
    | cons u1 r1 =>
      cases t2 with
      | nil => simp at h2
      | cons u2 r2 =>
        have e1 : r1.length = rest.length := by simpa using h1
        have e2 : r2.length = rest.length := by simpa using h2
        have hn' : rest.length ≤ 32768 := by
          have : (x1, x2) :: rest = (x1, x2) :: rest := rfl
          simp only [List.length_cons] at hn
          omega
        show (phasedisperser.mixLoop mix (phasedisperser.silenceStep c u1 u2) r1 r2 rest).1 =
          ((rest.length + 1 : Nat) : Int) - 1 - (j : Int)
        match j with
        | 0 =>
          have hloud0 : |u1| ≥ (phasedisperser.noiseFloor : α) ∨
              |u2| ≥ (phasedisperser.noiseFloor : α) := hloud
          have hstep : phasedisperser.silenceStep c u1 u2 = 0 := by
            simp only [phasedisperser.silenceStep, if_pos hloud0]
          have htail : ∀ i : Nat, i < rest.length →
              |r1.getD i 0| < (phasedisperser.noiseFloor : α) ∧
              |r2.getD i 0| < (phasedisperser.noiseFloor : α) := by
            intro i hi
            exact hs (i + 1) (Nat.succ_pos i) (by simpa using hi)
          rw [hstep, mixLoop_counter_all_silent mix 0 r1 r2 rest e1 e2 (by decide) htail]
          push_cast
          omega
        | k + 1 =>
          have hk : k < rest.length := by simpa using hj
          have htail : ∀ i : Nat, k < i → i < rest.length →
              |r1.getD i 0| < (phasedisperser.noiseFloor : α) ∧
              |r2.getD i 0| < (phasedisperser.noiseFloor : α) := by
            intro i hki hi
            exact hs (i + 1) (by omega) (by simpa using hi)
          have h := ih (phasedisperser.silenceStep c u1 u2) r1 r2 e1 e2 hn' k hk hloud htail
          rw [h]
          push_cast
          omega

end CounterLemmas

section ClaimsC12C15

variable {α : Type} [LinearOrderedField α] [FloorRing α]

/-- C12: the silence counter is a saturating counter.  From the object as constructed
(`samplesSinceSilence = 1`), after every block of every input sequence
`0 ≤ samplesSinceSilence ≤ 32768`; and one sample of the second scan, on a counter in that
range, resets it to 0 (not silent in either channel), or increments it by exactly 1 (silent
and counter below 32768), or leaves it at 32768; the result is in the range again. -/
theorem C12_saturating_counter (m : Libm α) (blocks : List (Attributes α × List (α × α))) :
    (0 ≤ (phasedisperser.runBlocks m phasedisperser.initial blocks).samplesSinceSilence ∧
      (phasedisperser.runBlocks m phasedisperser.initial blocks).samplesSinceSilence ≤ 32768) ∧
    (∀ (c : Int) (t1 t2 : α), 0 ≤ c → c ≤ 32768 →
      ((|t1| ≥ (phasedisperser.noiseFloor : α) ∨ |t2| ≥ (phasedisperser.noiseFloor : α)) →
        phasedisperser.silenceStep c t1 t2 = 0) ∧
      (¬ (|t1| ≥ (phasedisperser.noiseFloor : α) ∨ |t2| ≥ (phasedisperser.noiseFloor : α)) →
        c < 32768 → phasedisperser.silenceStep c t1 t2 = c + 1) ∧
      (¬ (|t1| ≥ (phasedisperser.noiseFloor : α) ∨ |t2| ≥ (phasedisperser.noiseFloor : α)) →
        ¬ c < 32768 → c = 32768 ∧ phasedisperser.silenceStep c t1 t2 = 32768) ∧
      0 ≤ phasedisperser.silenceStep c t1 t2 ∧ phasedisperser.silenceStep c t1 t2 ≤ 32768) := by
  constructor
  · exact runBlocks_counter_range m phasedisperser.initial blocks (by show (0 : Int) ≤ 1; decide)
      (by show (1 : Int) ≤ 32768; decide)
  · intro c t1 t2 h0 h1
    refine ⟨?_, ?_, ?_, silenceStep_range c t1 t2 h0 h1⟩
    · intro hl
      simp only [phasedisperser.silenceStep, if_pos hl]
    · intro hs hc
      simp only [phasedisperser.silenceStep, if_neg hs, if_pos hc]
    · intro hs hc
      have hceq : c = 32768 := by omega
      refine ⟨hceq, ?_⟩
      simp only [phasedisperser.silenceStep, if_neg hs, if_neg hc]
      exact hceq

/-- C15: the exact value of the silence counter after a block of `n ≤ 4096` samples entered
with counter `c ≤ 32768`.  After the first scan the counter is `c' = 0` if some raw input
sample of either channel is at or above the noise floor and `c' = c` otherwise.  If index
`j` is the last one at which a working-buffer sample of either channel is at or above the
noise floor, the counter on exit is `n - 1 - j`; if there is no such index it is
`min(32768, c' + n)`. -/
theorem C15_counter_exact (m : Libm α) (a : Attributes α) (s : phasedisperser α)
    (input : List (α × α)) (hc : s.samplesSinceSilence ≤ 32768) (hn : input.length ≤ 4096) :
    ((∃ f ∈ input, |f.1| ≥ (phasedisperser.noiseFloor : α) ∨
        |f.2| ≥ (phasedisperser.noiseFloor : α)) →
      (phasedisperser.beforeFilter m a s input).samplesSinceSilence = 0) ∧
    ((∀ f ∈ input, |f.1| < (phasedisperser.noiseFloor : α) ∧
        |f.2| < (phasedisperser.noiseFloor : α)) →
      (phasedisperser.beforeFilter m a s input).samplesSinceSilence = s.samplesSinceSilence) ∧
    (∀ j : Nat, j < input.length →
      (|(phasedisperser.operatorCall m a s input).temp1.getD j 0| ≥
          (phasedisperser.noiseFloor : α) ∨
        |(phasedisperser.operatorCall m a s input).temp2.getD j 0| ≥
          (phasedisperser.noiseFloor : α)) →
      (∀ i : Nat, j < i → i < input.length →
        |(phasedisperser.operatorCall m a s input).temp1.getD i 0| <
          (phasedisperser.noiseFloor : α) ∧
        |(phasedisperser.operatorCall m a s input).temp2.getD i 0| <
          (phasedisperser.noiseFloor : α)) →
      (phasedisperser.operatorCall m a s input).self.samplesSinceSilence =
        (input.length : Int) - 1 - (j : Int)) ∧
    ((∀ i : Nat, i < input.length →
        |(phasedisperser.operatorCall m a s input).temp1.getD i 0| <
          (phasedisperser.noiseFloor : α) ∧
        |(phasedisperser.operatorCall m a s input).temp2.getD i 0| <
          (phasedisperser.noiseFloor : α)) →
      (phasedisperser.operatorCall m a s input).self.samplesSinceSilence =
        min 32768 ((phasedisperser.beforeFilter m a s input).samplesSinceSilence +
          (input.length : Int))) := by
  obtain ⟨hl1, hl2, -, -⟩ := operatorCall_out m a s input
  have hr := resize_samplesSinceSilence m a s
  have hexit : (phasedisperser.operatorCall m a s input).self.samplesSinceSilence =
      (phasedisperser.mixLoop a.a_mix
        (phasedisperser.beforeFilter m a s input).samplesSinceSilence
        (phasedisperser.operatorCall m a s input).temp1
        (phasedisperser.operatorCall m a s input).temp2 input).1 := rfl
  have hbdef : (phasedisperser.beforeFilter m a s input).samplesSinceSilence =
      phasedisperser.copyInput (phasedisperser.resize m a s).samplesSinceSilence input := rfl
  have hbound : (phasedisperser.beforeFilter m a s input).samplesSinceSilence ≤ 32768 := by
    rw [hbdef, hr]
    by_cases hex : ∃ f ∈ input, |f.1| ≥ (phasedisperser.noiseFloor : α) ∨
        |f.2| ≥ (phasedisperser.noiseFloor : α)
    · rw [copyInput_loud _ _ hex]; decide
    · have hsil : phasedisperser.inputSilent input := by
        intro f hf
        constructor
        · by_contra h1
          exact hex ⟨f, hf, Or.inl (not_lt.1 h1)⟩
        · by_contra h2
          exact hex ⟨f, hf, Or.inr (not_lt.1 h2)⟩
      rw [copyInput_silent _ _ hsil]
      exact hc
  refine ⟨?_, ?_, ?_, ?_⟩
  · intro hex
    rw [hbdef, copyInput_loud _ _ hex]
  · intro hsil
    rw [hbdef, copyInput_silent _ _ hsil, hr]
  · intro j hj hloud hs
    rw [hexit]
    exact mixLoop_counter_last_loud a.a_mix _ _ _ input hl1 hl2 (by omega) j hj hloud hs
  · intro hs
    rw [hexit]
    exact mixLoop_counter_all_silent a.a_mix _ _ _ input hl1 hl2 hbound hs

/-- C15 on the object as constructed with the default attributes, at a block of one frame
`(1, 1)` over the reals. -/
theorem C15_counter_exact_witness :
    (phasedisperser.initial : phasedisperser ℝ).samplesSinceSilence ≤ 32768 ∧
    [((1 : ℝ), (1 : ℝ))].length ≤ 4096 ∧
    ((∃ f ∈ [((1 : ℝ), (1 : ℝ))], |f.1| ≥ (phasedisperser.noiseFloor : ℝ) ∨
        |f.2| ≥ (phasedisperser.noiseFloor : ℝ)) →
      (phasedisperser.beforeFilter (Libm.mk Real.sin Real.cos Real.exp Real.log Real.sqrt)
        phasedisperser.defaultAttributes phasedisperser.initial
        [((1 : ℝ), (1 : ℝ))]).samplesSinceSilence = 0) :=
  ⟨by show (1 : Int) ≤ 32768; decide, by decide,
    (C15_counter_exact (Libm.mk Real.sin Real.cos Real.exp Real.log Real.sqrt)
      phasedisperser.defaultAttributes phasedisperser.initial [((1 : ℝ), (1 : ℝ))]
      (by show (1 : Int) ≤ 32768; decide) (by decide)).1⟩

end ClaimsC12C15

/-! ## C13, C20 -/

/-- The five coefficients of the constructor are quotients by `a0`. -/
theorem construct_div_a0 {α : Type} [Field α] (m : Libm α) (frequency sr q : α) :
    (AllPassFilter.construct m frequency sr q).co.c0 =
      (1 - m.sin (2 * 3.14159265358979323846 * frequency / sr) * (2 * q)) /
        AllPassFilter.a0 m frequency sr q ∧
    (AllPassFilter.construct m frequency sr q).co.c1 =
      -2 * m.cos (2 * 3.14159265358979323846 * frequency / sr) /
        AllPassFilter.a0 m frequency sr q ∧
    (AllPassFilter.construct m frequency sr q).co.c2 =
      (1 + m.sin (2 * 3.14159265358979323846 * frequency / sr) * (2 * q)) /
        AllPassFilter.a0 m frequency sr q ∧
    (AllPassFilter.construct m frequency sr q).co.c3 =
      -2 * m.cos (2 * 3.14159265358979323846 * frequency / sr) /
        AllPassFilter.a0 m frequency sr q ∧
    (AllPassFilter.construct m frequency sr q).co.c4 =
      (1 - m.sin (2 * 3.14159265358979323846 * frequency / sr) * (2 * q)) /
        AllPassFilter.a0 m frequency sr q :=
  ⟨rfl, rfl, rfl, rfl, rfl⟩

/-- Below Nyquist the angle `w0` of the constructor lies in `(0, π)`, so its sine is
positive. -/
theorem sin_w0_pos (frequency sr : ℝ) (hf : 0 < frequency) (hny : frequency < sr / 2) :
    0 < Real.sin (2 * 3.14159265358979323846 * frequency / sr) := by
  have hsr : 0 < sr := by linarith
  have hpi := Real.pi_gt_d20
  apply Real.sin_pos_of_pos_of_lt_pi
  · positivity
  · have h1 : 2 * 3.14159265358979323846 * frequency / sr < 3.14159265358979323846 := by
      rw [div_lt_iff₀ hsr]
      nlinarith
    linarith

/-- The sine of the angle `w0` at `frequency = 33075`, `sr = 44100` (three quarters of the
sample rate) is negative. -/
theorem sin_w0_neg_at_33075 :
    Real.sin (2 * 3.14159265358979323846 * 33075 / 44100) < 0 := by
  have h3 := Real.pi_gt_three
  have h4 := Real.pi_lt_d2
  rw [← Real.sin_sub_two_pi]
  apply Real.sin_neg_of_neg_of_neg_pi_lt
  · have : (2 * 3.14159265358979323846 * 33075 / 44100 : ℝ) < 6 := by norm_num
    linarith
  · have : (4.7 : ℝ) < 2 * 3.14159265358979323846 * 33075 / 44100 := by norm_num
    norm_num at h4 ⊢
    linarith

/-- C13 (amended): division safety of the coefficient derivation.  For every positive
frequency, every positive sample rate and every `Q` at or above the floor 0.005, the
denominator `a0 = 1 + sin(2*pi*frequency/sr)*(2*Q)` of the constructor is non-zero (and so
`c2 = a0/a0 = 1`) provided the frequency is below half the sample rate or `Q < 1/2`. -/
theorem C13_division_safety (frequency sr q : ℝ) (hf : 0 < frequency) (_hsr : 0 < sr)
    (hq : 0.005 ≤ q) (h : frequency < sr / 2 ∨ q < 1 / 2) :
    AllPassFilter.a0 (Libm.mk Real.sin Real.cos Real.exp Real.log Real.sqrt)
      frequency sr q ≠ 0 ∧
    (AllPassFilter.construct (Libm.mk Real.sin Real.cos Real.exp Real.log Real.sqrt)
      frequency sr q).co.c2 = 1 := by
  have hq0 : (0 : ℝ) < q := by
    have : (0 : ℝ) < 0.005 := by norm_num
    linarith
  have hpos : 0 < 1 + Real.sin (2 * 3.14159265358979323846 * frequency / sr) * (2 * q) := by
    rcases h with hny | hq2
    · have hs := sin_w0_pos frequency sr hf hny
      positivity
    · have hs := Real.neg_one_le_sin (2 * 3.14159265358979323846 * frequency / sr)
      nlinarith
  have hne : AllPassFilter.a0 (Libm.mk Real.sin Real.cos Real.exp Real.log Real.sqrt)
      frequency sr q ≠ 0 := ne_of_gt hpos
  exact ⟨hne, div_self hne⟩

/-- C13 (amended) at `frequency = 1000`, `sr = 44100`, `q = 0.707`. -/
theorem C13_division_safety_witness :
    (0 : ℝ) < 1000 ∧ (0 : ℝ) < 44100 ∧ (0.005 : ℝ) ≤ 0.707 ∧
    ((1000 : ℝ) < 44100 / 2 ∨ (0.707 : ℝ) < 1 / 2) ∧
    AllPassFilter.a0 (Libm.mk Real.sin Real.cos Real.exp Real.log Real.sqrt)
      1000 44100 0.707 ≠ 0 :=
  ⟨by norm_num, by norm_num, by norm_num, Or.inl (by norm_num),
    (C13_division_safety 1000 44100 0.707 (by norm_num) (by norm_num) (by norm_num)
      (Or.inl (by norm_num))).1⟩

/-- C13 as stated fails: at `frequency = 33075`, `sr = 44100` the sine of `w0` is negative,
and with `Q = -1/(2*sin(w0))`, which is at least `1/2`, the denominator `a0` is zero. -/
theorem C13_counterexample :
    (0 : ℝ) < 33075 ∧ (0 : ℝ) < 44100 ∧
    (0.005 : ℝ) ≤ -1 / (2 * Real.sin (2 * 3.14159265358979323846 * 33075 / 44100)) ∧
    AllPassFilter.a0 (Libm.mk Real.sin Real.cos Real.exp Real.log Real.sqrt)
      33075 44100 (-1 / (2 * Real.sin (2 * 3.14159265358979323846 * 33075 / 44100))) = 0 := by
  have hneg := sin_w0_neg_at_33075
  have hge := Real.neg_one_le_sin (2 * 3.14159265358979323846 * 33075 / 44100)
  refine ⟨by norm_num, by norm_num, ?_, ?_⟩
  · rw [le_div_iff_of_neg (by linarith)]
    nlinarith
  · show 1 + Real.sin (2 * 3.14159265358979323846 * 33075 / 44100) *
      (2 * (-1 / (2 * Real.sin (2 * 3.14159265358979323846 * 33075 / 44100)))) = 0
    have hne : Real.sin (2 * 3.14159265358979323846 * 33075 / 44100) ≠ 0 := ne_of_lt hneg
    field_simp
    ring

/-- A real monic quadratic `z^2 + c3*z + c4` with `|c4| < 1` and `|c3| < 1 + c4` has its
complex roots strictly inside the unit circle. -/
theorem roots_inside_unit_circle (c3 c4 : ℝ) (h4 : |c4| < 1) (h3 : |c3| < 1 + c4) (z : ℂ)
    (hz : z ^ 2 + (c3 : ℂ) * z + (c4 : ℂ) = 0) : Complex.abs z < 1 := by
  have h4' := abs_lt.1 h4
  have h3' := abs_lt.1 h3
  have hre := congrArg Complex.re hz
  have him := congrArg Complex.im hz
  simp only [pow_two, Complex.add_re, Complex.mul_re, Complex.ofReal_re, Complex.ofReal_im,
    Complex.add_im, Complex.mul_im, Complex.zero_re, Complex.zero_im, zero_mul, sub_zero,
    add_zero] at hre him
  have hsq : Complex.normSq z < 1 := by
    rw [Complex.normSq_apply]
    by_cases hy : z.im = 0
    · rw [hy] at hre ⊢
      simp only [mul_zero, sub_zero, add_zero] at hre ⊢
      by_contra hcon
      have hge : 1 ≤ z.re * z.re := not_lt.1 hcon
      rcases le_or_lt 0 z.re with hpos | hneg
      · have h1 : 1 ≤ z.re := by nlinarith
        nlinarith
      · have h1 : z.re ≤ -1 := by nlinarith
        nlinarith
    · have hx : 2 * z.re + c3 = 0 := by
        have : z.im * (2 * z.re + c3) = 0 := by linarith
        rcases mul_eq_zero.1 this with h | h
        · exact absurd h hy
        · exact h
      nlinarith
  have habs : Complex.abs z ^ 2 < 1 := by
    rw [← Complex.normSq_eq_abs]; exact hsq
  have hnn : 0 ≤ Complex.abs z := (Complex.abs.nonneg z)
  nlinarith

/-- C20: stage stability below Nyquist.  For `0 < frequency < sr/2` (so `sr > 0`) and
`q > 0` the constructor has `alpha > 0`, and its coefficients satisfy `|c4| < 1` and
`|c3| < 1 + c4`; every zero `z` of the denominator `1 + c3*z^-1 + c4*z^-2` of the recursion
lies strictly inside the unit circle. -/
theorem C20_stage_stability (frequency sr q : ℝ) (hf : 0 < frequency)
    (hny : frequency < sr / 2) (hq : 0 < q) :
    0 < Real.sin (2 * 3.14159265358979323846 * frequency / sr) * (2 * q) ∧
    |(AllPassFilter.construct (Libm.mk Real.sin Real.cos Real.exp Real.log Real.sqrt)
      frequency sr q).co.c4| < 1 ∧
    |(AllPassFilter.construct (Libm.mk Real.sin Real.cos Real.exp Real.log Real.sqrt)
      frequency sr q).co.c3| <
      1 + (AllPassFilter.construct (Libm.mk Real.sin Real.cos Real.exp Real.log Real.sqrt)
        frequency sr q).co.c4 ∧
    (∀ z : ℂ, z ≠ 0 →
      1 + ((AllPassFilter.construct (Libm.mk Real.sin Real.cos Real.exp Real.log Real.sqrt)
          frequency sr q).co.c3 : ℂ) * z⁻¹ +
        ((AllPassFilter.construct (Libm.mk Real.sin Real.cos Real.exp Real.log Real.sqrt)
          frequency sr q).co.c4 : ℂ) * z⁻¹ ^ 2 = 0 →
      Complex.abs z < 1) := by
  have hs := sin_w0_pos frequency sr hf hny
  have halpha : 0 < Real.sin (2 * 3.14159265358979323846 * frequency / sr) * (2 * q) := by
    positivity
  have ha0 : 0 < 1 + Real.sin (2 * 3.14159265358979323846 * frequency / sr) * (2 * q) := by
    linarith
  have hcos : |Real.cos (2 * 3.14159265358979323846 * frequency / sr)| < 1 := by
    have hsq := Real.sin_sq_add_cos_sq (2 * 3.14159265358979323846 * frequency / sr)
    rw [abs_lt]
    constructor <;> nlinarith
  have hc4 : |(AllPassFilter.construct (Libm.mk Real.sin Real.cos Real.exp Real.log Real.sqrt)
      frequency sr q).co.c4| < 1 := by
    show |(1 - Real.sin (2 * 3.14159265358979323846 * frequency / sr) * (2 * q)) /
      (1 + Real.sin (2 * 3.14159265358979323846 * frequency / sr) * (2 * q))| < 1
    rw [abs_div, abs_of_pos ha0, div_lt_one ha0, abs_lt]
    constructor <;> linarith
  have hc3 : |(AllPassFilter.construct (Libm.mk Real.sin Real.cos Real.exp Real.log Real.sqrt)
      frequency sr q).co.c3| <
      1 + (AllPassFilter.construct (Libm.mk Real.sin Real.cos Real.exp Real.log Real.sqrt)
        frequency sr q).co.c4 := by
    show |-2 * Real.cos (2 * 3.14159265358979323846 * frequency / sr) /
        (1 + Real.sin (2 * 3.14159265358979323846 * frequency / sr) * (2 * q))| <
      1 + (1 - Real.sin (2 * 3.14159265358979323846 * frequency / sr) * (2 * q)) /
        (1 + Real.sin (2 * 3.14159265358979323846 * frequency / sr) * (2 * q))
    have e : 1 + (1 - Real.sin (2 * 3.14159265358979323846 * frequency / sr) * (2 * q)) /
        (1 + Real.sin (2 * 3.14159265358979323846 * frequency / sr) * (2 * q)) =
        2 / (1 + Real.sin (2 * 3.14159265358979323846 * frequency / sr) * (2 * q)) := by
      field_simp
      ring
    rw [e, abs_div, abs_of_pos ha0, div_lt_div_iff_of_pos_right ha0, abs_mul]
    have h2 : |(-2 : ℝ)| = 2 := by norm_num
    rw [h2]
    linarith
  refine ⟨halpha, hc4, hc3, ?_⟩
  intro z hz hden
  apply roots_inside_unit_circle _ _ hc4 hc3 z
  have hz2 : z ^ 2 ≠ 0 := pow_ne_zero 2 hz
  have hmul := congrArg (fun w => w * z ^ 2) hden
  simp only [zero_mul] at hmul
  rw [← hmul]
  field_simp
  ring

/-- C20 at `frequency = 1000`, `sr = 44100`, `q = 0.707`. -/
theorem C20_stage_stability_witness :
    (0 : ℝ) < 1000 ∧ (1000 : ℝ) < 44100 / 2 ∧ (0 : ℝ) < 0.707 ∧
    |(AllPassFilter.construct (Libm.mk Real.sin Real.cos Real.exp Real.log Real.sqrt)
      1000 44100 0.707).co.c4| < 1 :=
  ⟨by norm_num, by norm_num, by norm_num,
    (C20_stage_stability 1000 44100 0.707 (by norm_num) (by norm_num) (by norm_num)).2.1⟩

/-! ## C17 -/

section RunLemmas

variable {α : Type} [LinearOrderedField α] [FloorRing α]

theorem toLong_range (x : α) (h1 : 1 ≤ x) (h50 : x ≤ 50) :
    1 ≤ phasedisperser.toLong x ∧ phasedisperser.toLong x ≤ 50 := by
  have h0 : (0 : α) ≤ x := le_trans zero_le_one h1
  have hlo : (1 : Int) ≤ ⌊x⌋ := Int.le_floor.2 (by simpa using h1)
  have hhi : ⌊x⌋ ≤ (50 : Int) := by
    have h : ⌊x⌋ ≤ ⌊(50 : α)⌋ := Int.floor_mono h50
    have e : ⌊(50 : α)⌋ = 50 := by simp
    rw [e] at h
    exact h
  simp only [phasedisperser.toLong, if_pos h0]
  exact ⟨hlo, hhi⟩

/-- The filter step and the last loop change no coefficient. -/
theorem operatorCall_co (m : Libm α) (a : Attributes α) (s : phasedisperser α)
    (input : List (α × α)) (i : Int) :
    ((phasedisperser.operatorCall m a s input).self.filterL i).co =
      ((phasedisperser.resize m a s).filterL i).co ∧
    ((phasedisperser.operatorCall m a s input).self.filterR i).co =
      ((phasedisperser.resize m a s).filterR i).co := by
  by_cases hg : (phasedisperser.beforeFilter m a s input).samplesSinceSilence < 16384 ∧
      (phasedisperser.beforeFilter m a s input).cur_iterations ≠ 0 ∧ 0 < a.a_mix
  · have hopen := filterAudio_open a (phasedisperser.beforeFilter m a s input)
      (input.map Prod.fst) (input.map Prod.snd) hg
    have hL : (phasedisperser.operatorCall m a s input).self.filterL =
        (phasedisperser.filterAudio a (phasedisperser.beforeFilter m a s input)
          (input.map Prod.fst) (input.map Prod.snd)).filterL := rfl
    have hR : (phasedisperser.operatorCall m a s input).self.filterR =
        (phasedisperser.filterAudio a (phasedisperser.beforeFilter m a s input)
          (input.map Prod.fst) (input.map Prod.snd)).filterR := rfl
    have hbL : (phasedisperser.beforeFilter m a s input).filterL =
        (phasedisperser.resize m a s).filterL := rfl
    have hbR : (phasedisperser.beforeFilter m a s input).filterR =
        (phasedisperser.resize m a s).filterR := rfl
    rw [hL, hR, hopen]
    simp only [serialBank, hbL, hbR]
    constructor <;> split <;> first | rfl | exact processBlock_co _ _
  · obtain ⟨hL, hR, -⟩ := operatorCall_closed m a s input hg
    rw [hL, hR]
    exact ⟨rfl, rfl⟩

/-- The tuning invariant: the active stages of each bank have the coefficients of stage 0,
and the two stages 0 have equal coefficients. -/
theorem resize_tuned (m : Libm α) (a : Attributes α) (s : phasedisperser α)
    (ha : 1 ≤ a.a_intensity) (hk : 0 ≤ s.cur_iterations)
    (hinv : ∀ i : Int, 0 ≤ i → i < s.cur_iterations →
      (s.filterL i).co = (s.filterL 0).co ∧ (s.filterR i).co = (s.filterR 0).co)
    (hLR : (s.filterL 0).co = (s.filterR 0).co) :
    (∀ i : Int, 0 ≤ i → i < (phasedisperser.resize m a s).cur_iterations →
      ((phasedisperser.resize m a s).filterL i).co =
        ((phasedisperser.resize m a s).filterL 0).co ∧
      ((phasedisperser.resize m a s).filterR i).co =
        ((phasedisperser.resize m a s).filterR 0).co) ∧
    ((phasedisperser.resize m a s).filterL 0).co =
      ((phasedisperser.resize m a s).filterR 0).co := by
  have hn := resize_cur_iterations m a s
  rcases eq_or_lt_of_le hk with h0 | hpos
  · -- first-time path
    have hpos : 0 < phasedisperser.toLong a.a_intensity := by
      have h0' : (0 : α) ≤ a.a_intensity := le_trans zero_le_one ha
      have h1 : (1 : Int) ≤ ⌊a.a_intensity⌋ := Int.le_floor.2 (by simpa using ha)
      simp only [phasedisperser.toLong, if_pos h0']
      omega
    have hres := resize_setup m a s h0.symm hpos
    obtain ⟨hL, hR, -, -, hin, -⟩ := setupFilters_banks m a s
    have hL' : (phasedisperser.resize m a s).filterL =
        (phasedisperser.setupFilters m a s).filterL := by rw [hres]
    have hR' : (phasedisperser.resize m a s).filterR =
        (phasedisperser.setupFilters m a s).filterR := by rw [hres]
    rw [hL', hR', hn]
    refine ⟨?_, by rw [hL, hR]⟩
    intro i hi0 hi
    rcases eq_or_lt_of_le hi0 with hz | hp
    · rw [← hz]; exact ⟨rfl, rfl⟩
    · have h0' : (0 : α) ≤ a.a_intensity := le_trans zero_le_one ha
      have hi' : i < ⌊a.a_intensity⌋ := by
        simpa only [phasedisperser.toLong, if_pos h0'] using hi
      have hlt : (i : α) < a.a_intensity := by
        have h1 : i + 1 ≤ ⌊a.a_intensity⌋ := by omega
        have h2 : ((i + 1 : Int) : α) ≤ a.a_intensity := Int.le_floor.1 h1
        have h3 : (i : α) < ((i + 1 : Int) : α) := by
          push_cast
          exact lt_add_one _
        exact lt_of_lt_of_le h3 h2
      exact hin i (by omega) hlt
  · by_cases h1 : s.cur_iterations < phasedisperser.toLong a.a_intensity
    · rw [resize_grow m a s hpos h1]
      have hout0 : ¬ (s.cur_iterations ≤ 0 ∧ 0 < phasedisperser.toLong a.a_intensity) := by
        omega
      simp only [if_neg hout0]
      refine ⟨?_, hLR⟩
      intro i hi0 hi
      by_cases hin : s.cur_iterations ≤ i ∧ i < phasedisperser.toLong a.a_intensity
      · simp only [if_pos hin]
        exact hinv (s.cur_iterations - 1) (by omega) (by omega)
      · simp only [if_neg hin]
        exact hinv i hi0 (by omega)
    · have h1' : ¬ (phasedisperser.toLong a.a_intensity > s.cur_iterations) := h1
      by_cases h2 : phasedisperser.toLong a.a_intensity < s.cur_iterations
      · have hres : phasedisperser.resize m a s =
            { s with cur_iterations := phasedisperser.toLong a.a_intensity } := by
          simp only [phasedisperser.resize, h1', h2, if_true, if_false]
        rw [hres]
        refine ⟨?_, hLR⟩
        intro i hi0 hi
        exact hinv i hi0 (lt_trans hi h2)
      · have hres : phasedisperser.resize m a s = s := by
          simp only [phasedisperser.resize, h1', h2, if_false]
        rw [hres]
        exact ⟨hinv, hLR⟩

theorem operatorCall_tuned (m : Libm α) (a : Attributes α) (s : phasedisperser α)
    (input : List (α × α)) (ha : 1 ≤ a.a_intensity) (hk : 0 ≤ s.cur_iterations)
    (hinv : ∀ i : Int, 0 ≤ i → i < s.cur_iterations →
      (s.filterL i).co = (s.filterL 0).co ∧ (s.filterR i).co = (s.filterR 0).co)
    (hLR : (s.filterL 0).co = (s.filterR 0).co) :
    0 ≤ (phasedisperser.operatorCall m a s input).self.cur_iterations ∧
    (∀ i : Int, 0 ≤ i → i < (phasedisperser.operatorCall m a s input).self.cur_iterations →
      ((phasedisperser.operatorCall m a s input).self.filterL i).co =
        ((phasedisperser.operatorCall m a s input).self.filterL 0).co ∧
      ((phasedisperser.operatorCall m a s input).self.filterR i).co =
        ((phasedisperser.operatorCall m a s input).self.filterR 0).co) ∧
    ((phasedisperser.operatorCall m a s input).self.filterL 0).co =
      ((phasedisperser.operatorCall m a s input).self.filterR 0).co := by
  obtain ⟨h1, h2⟩ := resize_tuned m a s ha hk hinv hLR
  have hc0 := operatorCall_co m a s input 0
  have hcur : (phasedisperser.operatorCall m a s input).self.cur_iterations =
      (phasedisperser.resize m a s).cur_iterations := rfl
  have hpos : 0 ≤ (phasedisperser.operatorCall m a s input).self.cur_iterations := by
    rw [operatorCall_cur_iterations]
    have h0' : (0 : α) ≤ a.a_intensity := le_trans zero_le_one ha
    have hfl : (1 : Int) ≤ ⌊a.a_intensity⌋ := Int.le_floor.2 (by simpa using ha)
    simp only [phasedisperser.toLong, if_pos h0']
    omega
  refine ⟨hpos, ?_, ?_⟩
  · intro i hi0 hi
    have hci := operatorCall_co m a s input i
    rw [hci.1, hci.2, hc0.1, hc0.2]
    exact h1 i hi0 (by rw [← hcur]; exact hi)
  · rw [hc0.1, hc0.2]
    exact h2

theorem runBlocks_tuned (m : Libm α) (s : phasedisperser α)
    (blocks : List (Attributes α × List (α × α)))
    (h : ∀ b ∈ blocks, 1 ≤ b.1.a_intensity ∧ b.1.a_intensity ≤ 50)
    (hk : 0 ≤ s.cur_iterations)
    (hinv : ∀ i : Int, 0 ≤ i → i < s.cur_iterations →
      (s.filterL i).co = (s.filterL 0).co ∧ (s.filterR i).co = (s.filterR 0).co)
    (hLR : (s.filterL 0).co = (s.filterR 0).co) :
    (∀ i : Int, 0 ≤ i → i < (phasedisperser.runBlocks m s blocks).cur_iterations →
      ((phasedisperser.runBlocks m s blocks).filterL i).co =
        ((phasedisperser.runBlocks m s blocks).filterL 0).co ∧
      ((phasedisperser.runBlocks m s blocks).filterR i).co =
        ((phasedisperser.runBlocks m s blocks).filterR 0).co) ∧
    ((phasedisperser.runBlocks m s blocks).filterL 0).co =
      ((phasedisperser.runBlocks m s blocks).filterR 0).co := by
  induction blocks generalizing s with
  | nil => exact ⟨hinv, hLR⟩
  | cons b rest ih =>
    have hb := h b (List.mem_cons_self _ _)
    obtain ⟨h1, h2, h3⟩ := operatorCall_tuned m b.1 s b.2 hb.1 hk hinv hLR
    exact ih (phasedisperser.operatorCall m b.1 s b.2).self
      (fun c hc => h c (List.mem_cons_of_mem _ hc)) h1 h2 h3

theorem runBlocks_cur_range (m : Libm α)
    (blocks : List (Attributes α × List (α × α)))
    (h : ∀ b ∈ blocks, 1 ≤ b.1.a_intensity ∧ b.1.a_intensity ≤ 50)
    (s : phasedisperser α) (hs0 : 0 ≤ s.cur_iterations) (hs50 : s.cur_iterations ≤ 50) :
    0 ≤ (phasedisperser.runBlocks m s blocks).cur_iterations ∧
    (phasedisperser.runBlocks m s blocks).cur_iterations ≤ 50 ∧
    (blocks ≠ [] → 1 ≤ (phasedisperser.runBlocks m s blocks).cur_iterations) := by
  induction blocks generalizing s with
  | nil => exact ⟨hs0, hs50, fun hne => absurd rfl hne⟩
  | cons b rest ih =>
    have hb := h b (List.mem_cons_self _ _)
    have hr := toLong_range b.1.a_intensity hb.1 hb.2
    have hcur := operatorCall_cur_iterations m b.1 s b.2
    have hrest := ih (fun c hc => h c (List.mem_cons_of_mem _ hc))
      (phasedisperser.operatorCall m b.1 s b.2).self (by rw [hcur]; omega)
      (by rw [hcur]; exact hr.2)
    refine ⟨hrest.1, hrest.2.1, fun _ => ?_⟩
    cases rest with
    | nil =>
      show 1 ≤ (phasedisperser.operatorCall m b.1 s b.2).self.cur_iterations
      rw [hcur]; exact hr.1
    | cons c rest2 => exact hrest.2.2 (List.cons_ne_nil _ _)

end RunLemmas

section ClaimsC14C16

variable {α : Type} [LinearOrderedField α] [FloorRing α]

/-- C14: identical tuning across the cascade.  After every sequence of blocks, run from the
object as constructed, in which every intensity is in `[1, 50]`, every active stage
(`0 ≤ i < cur_iterations`) of the left and of the right bank has the five coefficients of
stage 0 of its bank, and the left and right stages 0 have equal coefficients. -/
theorem C14_identical_tuning (m : Libm α) (blocks : List (Attributes α × List (α × α)))
    (h : ∀ b ∈ blocks, 1 ≤ b.1.a_intensity ∧ b.1.a_intensity ≤ 50) :
    (∀ i : Int, 0 ≤ i →
      i < (phasedisperser.runBlocks m phasedisperser.initial blocks).cur_iterations →
      ((phasedisperser.runBlocks m phasedisperser.initial blocks).filterL i).co =
        ((phasedisperser.runBlocks m phasedisperser.initial blocks).filterL 0).co ∧
      ((phasedisperser.runBlocks m phasedisperser.initial blocks).filterR i).co =
        ((phasedisperser.runBlocks m phasedisperser.initial blocks).filterR 0).co) ∧
    ((phasedisperser.runBlocks m phasedisperser.initial blocks).filterL 0).co =
      ((phasedisperser.runBlocks m phasedisperser.initial blocks).filterR 0).co := by
  apply runBlocks_tuned m phasedisperser.initial blocks h
  · exact le_refl _
  · intro i hi0 hi
    exact absurd hi (not_lt.2 hi0)
  · rfl

/-- C14 after a block with intensity 5 and a block with intensity 10 over the reals. -/
theorem C14_identical_tuning_witness :
    (∀ b ∈ [(Attributes.mk (700 : ℝ) 5 0.7 0.8, [((1 : ℝ), (1 : ℝ))]),
        (Attributes.mk (700 : ℝ) 10 0.7 0.8, [((1 : ℝ), (1 : ℝ))])],
      1 ≤ b.1.a_intensity ∧ b.1.a_intensity ≤ 50) ∧
    ((phasedisperser.runBlocks (Libm.mk Real.sin Real.cos Real.exp Real.log Real.sqrt)
      phasedisperser.initial
      [(Attributes.mk (700 : ℝ) 5 0.7 0.8, [((1 : ℝ), (1 : ℝ))]),
        (Attributes.mk (700 : ℝ) 10 0.7 0.8, [((1 : ℝ), (1 : ℝ))])]).filterL 0).co =
    ((phasedisperser.runBlocks (Libm.mk Real.sin Real.cos Real.exp Real.log Real.sqrt)
      phasedisperser.initial
      [(Attributes.mk (700 : ℝ) 5 0.7 0.8, [((1 : ℝ), (1 : ℝ))]),
        (Attributes.mk (700 : ℝ) 10 0.7 0.8, [((1 : ℝ), (1 : ℝ))])]).filterR 0).co := by
  have h : ∀ b ∈ [(Attributes.mk (700 : ℝ) 5 0.7 0.8, [((1 : ℝ), (1 : ℝ))]),
      (Attributes.mk (700 : ℝ) 10 0.7 0.8, [((1 : ℝ), (1 : ℝ))])],
      1 ≤ b.1.a_intensity ∧ b.1.a_intensity ≤ 50 := by
    intro b hb
    simp only [List.mem_cons, List.mem_singleton, List.not_mem_nil, or_false] at hb
    rcases hb with rfl | rfl <;> norm_num
  exact ⟨h, (C14_identical_tuning _ _ h).2⟩

end ClaimsC14C16

section ClaimC19

variable {α : Type} [LinearOrderedField α] [FloorRing α]

theorem mem_forLoopIndices (lo hi i : Int) : i ∈ forLoopIndices lo hi ↔ lo ≤ i ∧ i < hi := by
  unfold forLoopIndices
  rw [List.mem_map]
  constructor
  · rintro ⟨k, hk, rfl⟩
    have hk' := List.mem_range.1 hk
    omega
  · rintro ⟨h1, h2⟩
    refine ⟨(i - lo).toNat, List.mem_range.2 (by omega), by omega⟩

/-- The loop `forLoop` runs its body on the indices of `forLoopIndices`, in order. -/
theorem forLoop_eq_foldl {σ : Type} (lo hi : Int) (body : Int → σ → σ) (s : σ) :
    forLoop lo hi body s = (forLoopIndices lo hi).foldl (fun st i => body i st) s := by
  unfold forLoop forLoopIndices
  generalize (hi - lo).toNat = n
  induction n with
  | zero => rfl
  | succ n ih =>
    rw [forLoopFrom_succ_last, ih, List.range_succ, List.map_append, List.foldl_append]
    rfl

/-- C19: index safety of the per-block driver.  For every object reached from the object as
constructed by blocks with intensity in `[1, 50]`, and every block with intensity in
`[1, 50]` and at most 4096 frames, every subscript applied to `filterL`/`filterR` (growth
loop, `setupFilters`, cascade loop) lies in `[0, 50)`, every subscript applied to the
sample buffers lies in `[0, 4096)`, the active count on entry is in `[0, 50]` (in
`[1, 50]` after at least one block) and on exit in `[1, 50]`. -/
theorem C19_index_safety (m : Libm α) (blocks : List (Attributes α × List (α × α)))
    (a : Attributes α) (input : List (α × α))
    (h : ∀ b ∈ blocks, 1 ≤ b.1.a_intensity ∧ b.1.a_intensity ≤ 50)
    (ha1 : 1 ≤ a.a_intensity) (ha50 : a.a_intensity ≤ 50) (hn : input.length ≤ 4096) :
    (∀ i ∈ phasedisperser.bankIndices m a
        (phasedisperser.runBlocks m phasedisperser.initial blocks) input,
      0 ≤ i ∧ i < maxFilters) ∧
    (∀ i ∈ phasedisperser.bufferIndices (input.length : Int), 0 ≤ i ∧ i < maxBufferSize) ∧
    0 ≤ (phasedisperser.runBlocks m phasedisperser.initial blocks).cur_iterations ∧
    (phasedisperser.runBlocks m phasedisperser.initial blocks).cur_iterations ≤ 50 ∧
    (blocks ≠ [] →
      1 ≤ (phasedisperser.runBlocks m phasedisperser.initial blocks).cur_iterations) ∧
    1 ≤ (phasedisperser.operatorCall m a
      (phasedisperser.runBlocks m phasedisperser.initial blocks) input).self.cur_iterations ∧
    (phasedisperser.operatorCall m a
      (phasedisperser.runBlocks m phasedisperser.initial blocks) input).self.cur_iterations ≤
      50 := by
  obtain ⟨hc0, hc50, hc1⟩ := runBlocks_cur_range m blocks h
    (phasedisperser.initial : phasedisperser α) (le_refl _) (by show (0 : Int) ≤ 50; decide)
  have hr := toLong_range a.a_intensity ha1 ha50
  have hceil : ⌈a.a_intensity⌉ ≤ 50 := by
    apply Int.ceil_le.2
    simpa using ha50
  have hbk : (phasedisperser.beforeFilter m a
      (phasedisperser.runBlocks m phasedisperser.initial blocks) input).cur_iterations =
      phasedisperser.toLong a.a_intensity := resize_cur_iterations m a _
  refine ⟨?_, ?_, hc0, hc50, hc1, ?_, ?_⟩
  · intro i hi
    unfold phasedisperser.bankIndices at hi
    rcases List.mem_append.1 hi with hres | hfil
    · unfold phasedisperser.resizeBankIndices at hres
      simp only at hres
      split at hres
      · split at hres
        · rw [List.mem_flatMap] at hres
          obtain ⟨k, hk, hik⟩ := hres
          rw [mem_forLoopIndices] at hk
          simp only [List.mem_cons, List.mem_singleton, List.not_mem_nil, or_false] at hik
          unfold maxFilters
          rcases hik with rfl | rfl <;> omega
        · rcases List.mem_cons.1 hres with rfl | hres'
          · exact ⟨le_refl _, by unfold maxFilters; decide⟩
          · rw [List.mem_flatMap] at hres'
            obtain ⟨k, hk, hik⟩ := hres'
            rw [mem_forLoopIndices] at hk
            simp only [List.mem_cons, List.mem_singleton, List.not_mem_nil, or_false] at hik
            unfold maxFilters
            rcases hik with rfl | rfl <;> omega
      · simp at hres
    · unfold phasedisperser.filterBankIndices at hfil
      split at hfil
      · rw [mem_forLoopIndices, hbk] at hfil
        unfold maxFilters
        omega
      · simp at hfil
  · intro i hi
    unfold phasedisperser.bufferIndices at hi
    rw [mem_forLoopIndices] at hi
    unfold maxBufferSize
    omega
  · rw [operatorCall_cur_iterations]; exact hr.1
  · rw [operatorCall_cur_iterations]; exact hr.2

/-- C19 on the object left by a first block with intensity 5, at a block with intensity 10
and one frame, over the reals. -/
theorem C19_index_safety_witness :
    (∀ b ∈ [(Attributes.mk (700 : ℝ) 5 0.7 0.8, [((1 : ℝ), (1 : ℝ))])],
      1 ≤ b.1.a_intensity ∧ b.1.a_intensity ≤ 50) ∧
    (1 : ℝ) ≤ (Attributes.mk (700 : ℝ) 10 0.7 0.8).a_intensity ∧
    (Attributes.mk (700 : ℝ) 10 0.7 0.8).a_intensity ≤ 50 ∧
    [((1 : ℝ), (1 : ℝ))].length ≤ 4096 ∧
    (∀ i ∈ phasedisperser.bankIndices (Libm.mk Real.sin Real.cos Real.exp Real.log Real.sqrt)
        (Attributes.mk (700 : ℝ) 10 0.7 0.8)
        (phasedisperser.runBlocks (Libm.mk Real.sin Real.cos Real.exp Real.log Real.sqrt)
          phasedisperser.initial
          [(Attributes.mk (700 : ℝ) 5 0.7 0.8, [((1 : ℝ), (1 : ℝ))])])
        [((1 : ℝ), (1 : ℝ))],
      0 ≤ i ∧ i < maxFilters) := by
  have h : ∀ b ∈ [(Attributes.mk (700 : ℝ) 5 0.7 0.8, [((1 : ℝ), (1 : ℝ))])],
      1 ≤ b.1.a_intensity ∧ b.1.a_intensity ≤ 50 := by
    intro b hb
    simp only [List.mem_singleton] at hb
    subst hb
    norm_num
  have ha1 : (1 : ℝ) ≤ (Attributes.mk (700 : ℝ) 10 0.7 0.8).a_intensity := by norm_num
  have ha50 : (Attributes.mk (700 : ℝ) 10 0.7 0.8).a_intensity ≤ 50 := by norm_num
  have hn : [((1 : ℝ), (1 : ℝ))].length ≤ 4096 := by decide
  exact ⟨h, ha1, ha50, hn, (C19_index_safety _ _ _ _ h ha1 ha50 hn).1⟩

end ClaimC19

end PhaseDisperser
